import Mathlib

/-!
# The GPS ingestion server (`Server/server.c`)

A shallow embedding of the connection-multiplexing core of the server and of
its persistence routine, followed by the properties proved about them.

Modelling conventions.

* `FD_SETSIZE` is a platform macro that the source does not define; every
  definition takes it as a parameter (1024 with glibc).
* `clients` is a `List Int`; reading `clients[i]` outside the list is undefined
  behaviour in C and makes the embedded function return `none`.
* An `fd_set` is modelled as a finite set of handles (`Finset Int`): `FD_SET`
  is `insert`, `FD_CLR` is `erase`, `FD_ISSET` is membership. The capacity of
  the bitmask (descriptors below `FD_SETSIZE`) is not modelled, so a table of
  `FD_SETSIZE` clients can fill up, as the source provides for.
* `select` leaves in `rset` the members of `aset` it reports readable; when it
  fails it leaves the set unchanged.
* `sprintf` into `char data[BUFLEN]` is undefined behaviour when the text and
  its terminating byte do not fit; `writeData` then returns `none`.
* The C `int`s that occur (handles, slot indices, byte counts) stay far from
  the 32-bit limits, so they are unbounded integers here.
* The operating system is an oracle: what `select`, `accept`, `read` and
  `close` return during one pass of the loop is an `Event`.
* The calls and log lines the server produces are recorded in `trace`.
* Text is a list of characters (`List Char`); a `char *` that may be `NULL` is
  an `Option (List Char)`.
-/

namespace GpsServer

/-- Size of the buffer that holds a client message: `#define BUFLEN 256`. -/
def BUFLEN : Nat := 256

/-- The terminating byte of a C string. -/
def nul : Char := Char.ofNat 0

/-- Calls and log lines the server produces, in program order. -/
inductive Action where
  /-- The call `accept(listenSock, ...)` in `acceptConnection`. -/
  | acceptCall
  /-- The line `accept() failed: ...` on stderr. -/
  | acceptFailed
  /-- The line `... connected` on stdout. -/
  | connected
  /-- The line `Can't accept more clients` on stderr. -/
  | cantAccept
  /-- The call `read(sockfd, msg, BUFLEN)` made for slot `slot`. -/
  | readCall (slot : Nat) (sockfd : Int)
  /-- The line `read() failed: ...` on stderr. -/
  | readFailed
  /-- The line `Client ... has disconnected` on stdout. -/
  | disconnected (sck : Int)
  /-- The call `close(sck)`. -/
  | closeCall (sck : Int)
  /-- The line `close() failed: ...` on stderr. -/
  | closeFailed
  /-- The call `writeData(cIP, cLat, cLong, cName, cTime)`. -/
  | writeDataCall (cIP cLat cLong cName cTime : Option (List Char))
  /-- The line `fseek failed : ...` on stderr. -/
  | fseekFailed
  deriving DecidableEq, Repr

/-- The variables of `runServer` and `monitorSockets` that live across passes
of the loop, the content of the data file (`none`: the file does not exist),
and the trace of calls made so far. -/
structure ServerState where
  /-- The array `int clients[FD_SETSIZE]`. -/
  clients : List Int
  /-- The set of all sockets, `aset`. -/
  aset : Finset Int
  /-- The largest descriptor value, `maxfd`. -/
  maxfd : Int
  /-- The local `ndx` of `monitorSockets`; it is not reset between passes. -/
  ndx : Int
  /-- Content of `../webapp/gpsData.json`. -/
  file : Option (List Char)
  /-- Calls and log lines so far. -/
  trace : List Action

instance : DecidableEq ServerState := fun a b =>
  decidable_of_iff
    (a.clients = b.clients ∧ a.aset = b.aset ∧ a.maxfd = b.maxfd ∧ a.ndx = b.ndx ∧
      a.file = b.file ∧ a.trace = b.trace)
    (by cases a; cases b; simp)

/-- What the operating system answers during one pass of the loop of
`monitorSockets`. -/
structure Event where
  /-- Return value of `select`. -/
  selectRet : Int
  /-- The handles `select` reports as readable. -/
  ready : Finset Int
  /-- Return value of `accept`, if it is called. -/
  acceptRet : Int
  /-- Outcome of `read` on the socket of a slot, if it is called: `none` is a
  failure (`-1`), `some bytes` delivers `bytes`. -/
  readRes : Nat → Option (List Char)
  /-- Return value of `close` on the socket of a slot, if it is called. -/
  closeRet : Nat → Int

/-! ## `writeData` -/

/-- How `%s` prints its argument; glibc prints `(null)` for a null pointer. -/
def fmtArg : Option (List Char) → List Char
  | some s => s
  | none => "(null)".toList

/-- The text `sprintf` produces in `writeData`. The two format strings of the
source differ only in their first two characters, `lead`: `",\n"` when the file
exists and `"[\n"` when it does not. -/
def formatData (lead : List Char) (cIP cLat cLong cName cTime : Option (List Char)) :
    List Char :=
  lead ++ "\x7b\n\"ip\": \"".toList ++ fmtArg cIP
    ++ "\",\n\"lat\": ".toList ++ fmtArg cLat
    ++ ",\n\"long\": ".toList ++ fmtArg cLong
    ++ ",\n\"name\": \"".toList ++ fmtArg cName
    ++ "\",\n\"time\": \"".toList ++ fmtArg cTime
    ++ "\"\n\x7d\n]".toList

/-- The function `writeData`: given the content of the data file it returns the
new content and the lines logged. `sprintf` stores the text and a terminating
byte in `char data[BUFLEN]`; a text of `BUFLEN` characters or more overruns the
buffer, which is undefined behaviour: the result is `none`. `fopen` is taken to
succeed. -/
def writeData (file : Option (List Char)) (cIP cLat cLong cName cTime : Option (List Char)) :
    Option (List Char × List Action) :=
  match file with
  | some content =>
    -- File exists
    let data := formatData ",\n".toList cIP cLat cLong cName cTime
    if BUFLEN ≤ data.length then none
    else if content.length = 0 then
      -- `fseek(fp, -1, SEEK_END)` fails on an empty file; the position stays 0
      some (data, [Action.fseekFailed])
    else
      -- Seek to replace the closing bracket
      some (content.dropLast ++ data, [])
  | none =>
    let data := formatData "[\n".toList cIP cLat cLong cName cTime
    if BUFLEN ≤ data.length then none
    else some (data, [])

/-! ## `readMsg` and the parsing of a message -/

/-- The function `readMsg`: the value it returns and the lines it logs. `read`
stores at most `BUFLEN` bytes. -/
def readMsg (res : Option (List Char)) : Int × List Action :=
  match res with
  | none => (-1, [Action.readFailed])
  | some bytes => (((bytes.take BUFLEN).length : Nat), [])

/-- The C string that starts at `msg` after `memset(msg, 0, sizeof(msg))` and a
`read` that stored `bytes`: the bytes before the first zero byte. When all
`BUFLEN` bytes are non-zero the string is not terminated inside the buffer and
`strtok` runs past it: `none`. -/
def msgString (bytes : List Char) : Option (List Char) :=
  let buf := bytes.take BUFLEN
  if nul ∈ buf ∨ buf.length < BUFLEN then some (buf.takeWhile (fun c => c != nul))
  else none

/-- One call of `strtok(..., " ")` on the text that is left: the token (or
`none` for `NULL`) and the text left for the next call. -/
def strtok (s : List Char) : Option (List Char) × List Char :=
  match s.dropWhile (fun c => c == ' ') with
  | [] => (none, [])
  | c :: cs =>
    (some ((c :: cs).takeWhile (fun c => c != ' ')),
      ((c :: cs).dropWhile (fun c => c != ' ')).drop 1)

/-- The five `strtok` calls of `readSockets`, in the order of the source:
`cTime`, `ip`, `name`, `lat`, `lng`. -/
structure Tokens where
  cTime : Option (List Char)
  ip : Option (List Char)
  name : Option (List Char)
  lat : Option (List Char)
  lng : Option (List Char)
  deriving DecidableEq, Repr

/-- Parse the received message and separate by spaces. -/
def parseMsg (str : List Char) : Tokens :=
  let t1 := strtok str
  let t2 := strtok t1.2
  let t3 := strtok t2.2
  let t4 := strtok t3.2
  let t5 := strtok t4.2
  { cTime := t1.1, ip := t2.1, name := t3.1, lat := t4.1, lng := t5.1 }

/-! ## `closeSocket` and `readSockets` -/

/-- The function `closeSocket(sck, allset, clients, index)`; `closeRet` is what
`close(sck)` returns. -/
def closeSocket (sck : Int) (index : Nat) (closeRet : Int) (s : ServerState) : ServerState :=
  { s with
    trace := s.trace ++ [Action.disconnected sck, Action.closeCall sck]
      ++ (if closeRet < 0 then [Action.closeFailed] else []),
    aset := s.aset.erase sck,
    clients := s.clients.set index (-1) }

/-- The body of the loop of `readSockets` for slot `i`. -/
def readSlot (rset : Finset Int) (ev : Event) (i : Nat) (s : ServerState) :
    Option ServerState :=
  match s.clients[i]? with
  | none => none
  | some sockfd =>
    -- check to see if current client exists
    if sockfd < 0 then some s
    -- check to see if current client is signaled
    else if sockfd ∈ rset then
      let r := readMsg (ev.readRes i)
      let s1 := { s with trace := s.trace ++ [Action.readCall i sockfd] ++ r.2 }
      if r.1 < 0 then some s1
      -- close request received
      else if r.1 = 0 then some (closeSocket sockfd i (ev.closeRet i) s1)
      else
        match msgString ((ev.readRes i).getD []) with
        | none => none
        | some str =>
          let t := parseMsg str
          -- Write message to file
          match writeData s1.file t.ip t.lat t.lng t.name t.cTime with
          | none => none
          | some (content, logged) =>
            some { s1 with
              file := some content,
              trace := s1.trace
                ++ [Action.writeDataCall t.ip t.lat t.lng t.name t.cTime] ++ logged }
    else some s

/-- The loop `for (int i = 0; i <= numClients; i++)` of `readSockets`, started at
`i` with `fuel` passes left. -/
def readLoop (rset : Finset Int) (ev : Event) : Nat → Nat → ServerState → Option ServerState
  | 0, _, s => some s
  | fuel + 1, i, s =>
    match readSlot rset ev i s with
    | none => none
    | some s1 => readLoop rset ev fuel (i + 1) s1

/-- The function `readSockets(numClients, clients, rset, allset)`: slots
`0 .. numClients` are visited, `numClients + 1` of them (none if that is not
positive). -/
def readSockets (numClients : Int) (rset : Finset Int) (ev : Event) (s : ServerState) :
    Option ServerState :=
  readLoop rset ev (numClients + 1).toNat 0 s

/-! ## `monitorSockets` and `runServer` -/

/-- The loop of `monitorSockets` that saves the new connection socket
descriptor, started at `ndx` with `fuel = FD_SETSIZE - ndx` passes left: the
new array and the value of `ndx` when the loop is left. -/
def saveLoop (rcvSock : Int) : Nat → Nat → List Int → Option (List Int × Nat)
  | 0, ndx, clients => some (clients, ndx)
  | fuel + 1, ndx, clients =>
    match clients[ndx]? with
    | none => none
    | some c =>
      if c < 0 then some (clients.set ndx rcvSock, ndx)
      else saveLoop rcvSock fuel (ndx + 1) clients

/-- The loop `for (ndx = 0; ndx < FD_SETSIZE; ndx++)` of `monitorSockets`. -/
def saveSlot (FD_SETSIZE : Nat) (clients : List Int) (rcvSock : Int) :
    Option (List Int × Nat) :=
  saveLoop rcvSock FD_SETSIZE 0 clients

/-- The ready set after `*rset = *aset; select(maxfd + 1, rset, ...)`: the
members of `aset` that are reported readable; when `select` fails the set is
left as it is. -/
def selectReady (aset : Finset Int) (ev : Event) : Finset Int :=
  if ev.selectRet < 0 then aset else aset ∩ ev.ready

/-- One pass of the `while (1)` loop of `monitorSockets`. -/
def monitorPass (FD_SETSIZE : Nat) (listenSock : Int) (s : ServerState) (ev : Event) :
    Option ServerState :=
  let rset := selectReady s.aset ev
  let readySocks := ev.selectRet
  -- Client wants to connect
  if listenSock ∈ rset then
    let rcvSock := ev.acceptRet
    if rcvSock < 0 then
      some { s with trace := s.trace ++ [Action.acceptCall, Action.acceptFailed] }
    else
      -- Save the new connection socket descriptor
      match saveSlot FD_SETSIZE s.clients rcvSock with
      | none => none
      | some (clients, ndx) =>
        let s1 := { s with
          clients := clients, ndx := ndx,
          trace := s.trace ++ [Action.acceptCall, Action.connected] }
        -- Check if max clients has been reached
        if ndx = FD_SETSIZE then
          some { s1 with trace := s1.trace ++ [Action.cantAccept] }
        else
          -- Update sets and max file descriptor value
          let s2 := { s1 with
            aset := insert rcvSock s1.aset,
            maxfd := if rcvSock > s1.maxfd then rcvSock else s1.maxfd }
          -- No more sockets are ready
          if readySocks - 1 ≤ 0 then some s2
          else
            -- Begin reading the sockets
            readSockets s2.ndx rset ev s2
  else
    -- Begin reading the sockets
    readSockets s.ndx rset ev s

/-- The state in which `runServer` enters `monitorSockets`. `ndx0` is the
indeterminate value of the uninitialised local `ndx`, `file0` the content of
the data file when the server starts. -/
def runServer (FD_SETSIZE : Nat) (listenSock : Int) (ndx0 : Int) (file0 : Option (List Char)) :
    ServerState :=
  { clients := List.replicate FD_SETSIZE (-1),
    aset := {listenSock},
    maxfd := listenSock,
    ndx := ndx0,
    file := file0,
    trace := [] }

/-- The function `monitorSockets`, run for as many passes of its endless loop as
there are events. -/
def monitorSockets (FD_SETSIZE : Nat) (listenSock : Int) :
    ServerState → List Event → Option ServerState
  | s, [] => some s
  | s, ev :: evs =>
    match monitorPass FD_SETSIZE listenSock s ev with
    | none => none
    | some s1 => monitorSockets FD_SETSIZE listenSock s1 evs

/-! ## Assumptions on the environment and invariants -/

/-- The assumption on `accept` for one pass of the loop: when `accept` is called
(the listening socket is ready) and succeeds, the handle it returns differs from
the listening socket and is not stored in `clients`. -/
def freshAccept (listenSock : Int) (s : ServerState) (ev : Event) : Prop :=
  listenSock ∈ selectReady s.aset ev → 0 ≤ ev.acceptRet →
    ev.acceptRet ≠ listenSock ∧ ev.acceptRet ∉ s.clients

instance (listenSock : Int) (s : ServerState) (ev : Event) :
    Decidable (freshAccept listenSock s ev) := by
  unfold freshAccept
  infer_instance

/-- The assumption on `accept` along a run: `freshAccept` holds in the state in
which each pass starts. -/
def freshAccepts (FD_SETSIZE : Nat) (listenSock : Int) : ServerState → List Event → Prop
  | _, [] => True
  | s, ev :: evs =>
    freshAccept listenSock s ev ∧
      match monitorPass FD_SETSIZE listenSock s ev with
      | none => True
      | some s1 => freshAccepts FD_SETSIZE listenSock s1 evs

/-- The invariant that links the table and the set of all sockets: the set holds
the listening socket and the handles of the occupied slots, no handle occupies
two slots, and the listening socket occupies none. -/
def TableInv (listenSock : Int) (clients : List Int) (aset : Finset Int) : Prop :=
  (∀ fd, fd ∈ aset ↔ fd = listenSock ∨ (0 ≤ fd ∧ fd ∈ clients)) ∧
  (∀ (i j : Nat) (c : Int), clients[i]? = some c → clients[j]? = some c → 0 ≤ c → i = j) ∧
  (listenSock ∈ clients → listenSock < 0)

instance decFreshAccepts (FD_SETSIZE : Nat) (listenSock : Int) :
    ∀ (s : ServerState) (evs : List Event), Decidable (freshAccepts FD_SETSIZE listenSock s evs)
  | _, [] => isTrue trivial
  | s, ev :: evs =>
    match h : monitorPass FD_SETSIZE listenSock s ev with
    | none =>
      decidable_of_iff (freshAccept listenSock s ev) (by simp [freshAccepts, h])
    | some s1 =>
      have := decFreshAccepts FD_SETSIZE listenSock s1 evs
      decidable_of_iff (freshAccept listenSock s ev ∧ freshAccepts FD_SETSIZE listenSock s1 evs)
        (by simp [freshAccepts, h])

/-! ## Events used in the examples -/

/-- A pass in which `select` reports the listening socket alone and `accept`
returns `rcvSock`. -/
def acceptEvent (listenSock rcvSock : Int) : Event :=
  { selectRet := 1, ready := {listenSock}, acceptRet := rcvSock,
    readRes := fun _ => none, closeRet := fun _ => 0 }

/-- A pass in which `select` reports the client socket `sockfd` alone and a
`read` on it has the outcome `res`. -/
def readEvent (sockfd : Int) (res : Option (List Char)) : Event :=
  { selectRet := 1, ready := {sockfd}, acceptRet := -1,
    readRes := fun _ => res, closeRet := fun _ => 0 }

/-- The passes in which `n` clients connect one after the other and get the
handles `base`, `base + 1`, ... -/
def acceptEvents (listenSock base : Int) (n : Nat) : List Event :=
  (List.range n).map (fun k => acceptEvent listenSock (base + k))

/-- The report of the scenario of the specification. -/
def aliceMsg : List Char := "2024-01-01T00:00:00Z 10.0.0.5 alice 43.65 -79.38".toList

/-- The passes of a run in which client 4 and client 5 connect (slots 0 and 1),
client 4 closes, and a new client, again with handle 4, connects (slot 0). -/
def reconnectEvents : List Event :=
  [acceptEvent 3 4, acceptEvent 3 5, readEvent 4 (some []), acceptEvent 3 4]

/-- The state the run `reconnectEvents` leads to with `FD_SETSIZE = 1024` and
listening socket 3. -/
def reconnectState : ServerState :=
  { clients := [4, 5] ++ List.replicate 1022 (-1),
    aset := {3, 4, 5},
    maxfd := 5,
    ndx := 0,
    file := none,
    trace := [Action.acceptCall, Action.connected, Action.acceptCall, Action.connected,
      Action.readCall 0 4, Action.disconnected 4, Action.closeCall 4,
      Action.acceptCall, Action.connected] }

/-! ## Successive reports -/

/-- Successive calls of `writeData`, one for each report of the list, on a data
file that starts with the content `file`: the content at the end. -/
def writeReports : Option (List Char) → List Tokens → Option (Option (List Char))
  | file, [] => some file
  | file, r :: rs =>
    match writeData file r.ip r.lat r.lng r.name r.cTime with
    | none => none
    | some (content, _) => writeReports (some content) rs

/-- The record object of a report as the specification describes it: the
members `ip`, `lat`, `long`, `name`, `time` in this order, the values of `ip`,
`name` and `time` quoted, each member on a line of its own. -/
def recordObject (r : Tokens) : List Char :=
  "\x7b\n\"ip\": \"".toList ++ fmtArg r.ip
    ++ "\",\n\"lat\": ".toList ++ fmtArg r.lat
    ++ ",\n\"long\": ".toList ++ fmtArg r.lng
    ++ ",\n\"name\": \"".toList ++ fmtArg r.name
    ++ "\",\n\"time\": \"".toList ++ fmtArg r.cTime
    ++ "\"\n\x7d".toList

/-- The content of the data file as the specification describes it for the
reports `r :: rs`: an opening bracket and a line break, the record objects in
the order written, consecutive objects separated by a line break, a comma and a
line break, then a line break and the closing bracket. -/
def fileText (r : Tokens) (rs : List Tokens) : List Char :=
  "[\n".toList ++ recordObject r
    ++ (rs.map (fun x => "\n,\n".toList ++ recordObject x)).flatten ++ "\n]".toList

/-- The number of characters of the five fields of a report as `%s` prints
them. -/
def fieldLength (r : Tokens) : Nat :=
  (fmtArg r.ip).length + (fmtArg r.lat).length + (fmtArg r.lng).length
    + (fmtArg r.name).length + (fmtArg r.cTime).length

/-- A message of five tokens: the tokens separated by single spaces. -/
def fiveTokens (t1 t2 t3 t4 t5 : List Char) : List Char :=
  t1 ++ ' ' :: (t2 ++ ' ' :: (t3 ++ ' ' :: (t4 ++ ' ' :: t5)))

/-- A token of a well-formed message: not empty, without space and without
zero byte. -/
def isToken (t : List Char) : Prop :=
  t ≠ [] ∧ ∀ c ∈ t, c ≠ ' ' ∧ c ≠ nul

instance (t : List Char) : Decidable (isToken t) := by
  unfold isToken
  infer_instance

/-- A name of 200 characters. -/
def longName : List Char := List.replicate 200 'a'

/-- A report of 243 bytes: the report of the scenario of the specification with
the name `longName`. -/
def longMsg : List Char :=
  fiveTokens "2024-01-01T00:00:00Z".toList "10.0.0.5".toList longName "43.65".toList
    "-79.38".toList

/-- The report `longMsg` after parsing. -/
def longReport : Tokens :=
  { cTime := some "2024-01-01T00:00:00Z".toList, ip := some "10.0.0.5".toList,
    name := some longName, lat := some "43.65".toList, lng := some "-79.38".toList }

/-- The report `aliceMsg` after parsing. -/
def aliceReport : Tokens :=
  { cTime := some "2024-01-01T00:00:00Z".toList, ip := some "10.0.0.5".toList,
    name := some "alice".toList, lat := some "43.65".toList, lng := some "-79.38".toList }

/-- A server with four slots in which client 4 occupies slot 0. -/
def oneClient (file : Option (List Char)) : ServerState :=
  { clients := [4, -1, -1, -1], aset := {3, 4}, maxfd := 4, ndx := 0,
    file := file, trace := [] }


/-! ## Properties of the slot search -/

theorem saveLoop_spec (rcvSock : Int) :
    ∀ (fuel ndx : Nat) (clients : List Int), ndx + fuel = clients.length →
      (∃ k, ndx ≤ k ∧ k < clients.length ∧ (∃ c, clients[k]? = some c ∧ c < 0) ∧
          (∀ j, ndx ≤ j → j < k → ∃ c, clients[j]? = some c ∧ 0 ≤ c) ∧
          saveLoop rcvSock fuel ndx clients = some (clients.set k rcvSock, k)) ∨
      ((∀ j, ndx ≤ j → j < clients.length → ∃ c, clients[j]? = some c ∧ 0 ≤ c) ∧
          saveLoop rcvSock fuel ndx clients = some (clients, clients.length)) := by
  intro fuel
  induction fuel with
  | zero =>
    intro ndx clients h
    right
    refine ⟨fun j h1 h2 => by omega, ?_⟩
    simp only [saveLoop]
    have : ndx = clients.length := by omega
    rw [this]
  | succ fuel ih =>
    intro ndx clients h
    have hlt : ndx < clients.length := by omega
    obtain ⟨c, hc⟩ : ∃ c, clients[ndx]? = some c := ⟨clients[ndx], List.getElem?_eq_getElem hlt⟩
    by_cases hneg : c < 0
    · left
      refine ⟨ndx, le_refl _, hlt, ⟨c, hc, hneg⟩, fun j h1 h2 => by omega, ?_⟩
      simp [saveLoop, hc, hneg]
    · have hrec : saveLoop rcvSock (fuel + 1) ndx clients = saveLoop rcvSock fuel (ndx + 1) clients := by
        simp [saveLoop, hc, hneg]
      rcases ih (ndx + 1) clients (by omega) with ⟨k, hk1, hk2, hk3, hk4, hk5⟩ | ⟨h1, h2⟩
      · left
        refine ⟨k, by omega, hk2, hk3, ?_, by rw [hrec, hk5]⟩
        intro j hj1 hj2
        by_cases hj : j = ndx
        · subst hj; exact ⟨c, hc, by omega⟩
        · exact hk4 j (by omega) hj2
      · right
        refine ⟨?_, by rw [hrec, h2]⟩
        intro j hj1 hj2
        by_cases hj : j = ndx
        · subst hj; exact ⟨c, hc, by omega⟩
        · exact h1 j (by omega) hj2


theorem saveSlot_full (FD_SETSIZE : Nat) (clients : List Int) (rcvSock : Int)
    (hlen : clients.length = FD_SETSIZE) (hfull : ∀ c ∈ clients, 0 ≤ c) :
    saveSlot FD_SETSIZE clients rcvSock = some (clients, FD_SETSIZE) := by
  rcases saveLoop_spec rcvSock FD_SETSIZE 0 clients (by omega) with
    ⟨k, _, _, ⟨c, hc, hneg⟩, _, _⟩ | ⟨_, h2⟩
  · have := hfull c (List.mem_iff_getElem?.mpr ⟨k, hc⟩)
    omega
  · rw [saveSlot, h2, hlen]

theorem saveSlot_lowest (FD_SETSIZE : Nat) (clients : List Int) (rcvSock : Int) (k : Nat)
    (hlen : clients.length = FD_SETSIZE) (c : Int) (hk : clients[k]? = some c) (hneg : c < 0)
    (hbelow : ∀ j, j < k → ∃ d, clients[j]? = some d ∧ 0 ≤ d) :
    saveSlot FD_SETSIZE clients rcvSock = some (clients.set k rcvSock, k) := by
  rcases saveLoop_spec rcvSock FD_SETSIZE 0 clients (by omega) with
    ⟨k', _, hk2, ⟨c', hc', hneg'⟩, hk4, hk5⟩ | ⟨h1, _⟩
  · have hkk : k' = k := by
      rcases Nat.lt_trichotomy k' k with h | h | h
      · obtain ⟨d, hd1, hd2⟩ := hbelow k' h
        rw [hc'] at hd1; cases hd1; omega
      · exact h
      · obtain ⟨d, hd1, hd2⟩ := hk4 k (Nat.zero_le _) h
        rw [hk] at hd1; cases hd1; omega
    subst hkk
    exact hk5
  · have hklt : k < clients.length := (List.getElem?_eq_some.mp hk).1
    obtain ⟨d, hd1, hd2⟩ := h1 k (Nat.zero_le _) hklt
    rw [hk] at hd1; cases hd1; omega

/-! ## Properties of `readSockets` -/

theorem readMsg_zero (res : Option (List Char)) (h : (readMsg res).1 = 0) :
    (readMsg res).2 = [] := by
  cases res with
  | none => simp [readMsg] at h
  | some bytes => simp [readMsg]

theorem readMsg_neg (res : Option (List Char)) (h : (readMsg res).1 < 0) :
    readMsg res = (-1, [Action.readFailed]) := by
  cases res with
  | none => rfl
  | some bytes =>
    simp only [readMsg] at h
    omega

/-- What one pass of the loop of `readSockets` can do to the table and to the
set of all sockets: nothing, or release the slot it visits. -/
theorem readSlot_cases (rset : Finset Int) (ev : Event) (i : Nat) (s s1 : ServerState)
    (h : readSlot rset ev i s = some s1) :
    s1.maxfd = s.maxfd ∧ s1.ndx = s.ndx ∧
    ((s1.clients = s.clients ∧ s1.aset = s.aset) ∨
      (∃ sockfd, s.clients[i]? = some sockfd ∧ 0 ≤ sockfd ∧ sockfd ∈ rset ∧
        s1.clients = s.clients.set i (-1) ∧ s1.aset = s.aset.erase sockfd)) := by
  unfold readSlot at h
  split at h
  · simp at h
  · rename_i sockfd hs
    split at h
    · simp only [Option.some.injEq] at h; subst h; simp
    · rename_i hocc
      split at h
      · rename_i hready
        simp only at h
        split at h
        · simp only [Option.some.injEq] at h; subst h; simp
        · split at h
          · simp only [Option.some.injEq] at h; subst h
            refine ⟨rfl, rfl, Or.inr ⟨sockfd, hs, by omega, hready, rfl, rfl⟩⟩
          · split at h
            · simp at h
            · split at h
              · simp at h
              · simp only [Option.some.injEq] at h; subst h; simp
      · simp only [Option.some.injEq] at h; subst h; simp

theorem readSlot_other (rset : Finset Int) (ev : Event) (i : Nat) (s s1 : ServerState)
    (h : readSlot rset ev i s = some s1) :
    s1.clients.length = s.clients.length ∧ s1.aset ⊆ s.aset ∧
      ∀ k, k ≠ i → s1.clients[k]? = s.clients[k]? := by
  obtain ⟨_, _, ⟨hc, ha⟩ | ⟨sockfd, _, _, _, hc, ha⟩⟩ := readSlot_cases rset ev i s s1 h
  · rw [hc, ha]; exact ⟨rfl, Finset.Subset.refl _, fun _ _ => rfl⟩
  · rw [hc, ha]
    exact ⟨by simp, Finset.erase_subset _ _, fun k hk => List.getElem?_set_ne (Ne.symm hk)⟩

theorem readLoop_other (rset : Finset Int) (ev : Event) :
    ∀ (fuel i : Nat) (s s1 : ServerState), readLoop rset ev fuel i s = some s1 →
      s1.clients.length = s.clients.length ∧ s1.aset ⊆ s.aset ∧
        ∀ k, (k < i ∨ i + fuel ≤ k) → s1.clients[k]? = s.clients[k]? := by
  intro fuel
  induction fuel with
  | zero =>
    intro i s s1 h
    simp only [readLoop, Option.some.injEq] at h
    subst h
    exact ⟨rfl, Finset.Subset.refl _, fun _ _ => rfl⟩
  | succ fuel ih =>
    intro i s s1 h
    simp only [readLoop] at h
    split at h
    · simp at h
    · rename_i s2 hs2
      obtain ⟨h1, h2, h3⟩ := readSlot_other rset ev i s s2 hs2
      obtain ⟨h4, h5, h6⟩ := ih (i + 1) s2 s1 h
      refine ⟨by omega, h5.trans h2, fun k hk => ?_⟩
      rw [h6 k (by omega), h3 k (by omega)]

theorem readLoop_split (rset : Finset Int) (ev : Event) :
    ∀ (a b i : Nat) (s s2 : ServerState), readLoop rset ev (a + b) i s = some s2 →
      ∃ s1, readLoop rset ev a i s = some s1 ∧ readLoop rset ev b (i + a) s1 = some s2 := by
  intro a
  induction a with
  | zero =>
    intro b i s s2 h
    exact ⟨s, rfl, by simpa using h⟩
  | succ a ih =>
    intro b i s s2 h
    have hab : a + 1 + b = (a + b) + 1 := by omega
    rw [hab] at h
    simp only [readLoop] at h
    split at h
    · simp at h
    · rename_i s0 hs0
      obtain ⟨s1, h1, h2⟩ := ih b (i + 1) s0 s2 h
      refine ⟨s1, ?_, ?_⟩
      · simp only [readLoop, hs0]; exact h1
      · have : i + (a + 1) = i + 1 + a := by omega
        rw [this]; exact h2

theorem readSlot_zero (rset : Finset Int) (ev : Event) (i : Nat) (s : ServerState) (sockfd : Int)
    (hslot : s.clients[i]? = some sockfd) (hocc : 0 ≤ sockfd) (hready : sockfd ∈ rset)
    (hzero : (readMsg (ev.readRes i)).1 = 0) :
    readSlot rset ev i s = some (closeSocket sockfd i (ev.closeRet i)
      { s with trace := s.trace ++ [Action.readCall i sockfd] }) := by
  have h2 := readMsg_zero _ hzero
  unfold readSlot
  simp [hslot, not_lt.mpr hocc, hready, hzero, h2]


/-- C4. When the loop of `readSockets` visits an occupied slot `i` whose handle
is in the ready set and `read` returns 0, the slot is released: `clients[i]`
becomes -1 and the handle leaves the set of all sockets, whatever `close`
returns; every other slot keeps its value, the data file is untouched and the
only calls made are the `read` and the `close` (no `writeData`). When
`readSockets` visits slot `i` at all (`i ≤ numClients`) and returns, the slot is
still released at its end. -/
theorem C4_read_zero_releases_slot (rset : Finset Int) (ev : Event) (i : Nat)
    (s : ServerState) (sockfd : Int)
    (hslot : s.clients[i]? = some sockfd) (hocc : 0 ≤ sockfd) (hready : sockfd ∈ rset)
    (hzero : (readMsg (ev.readRes i)).1 = 0) :
    (∃ s1, readSlot rset ev i s = some s1 ∧
      s1.clients[i]? = some (-1) ∧ sockfd ∉ s1.aset ∧
      (∀ j, j ≠ i → s1.clients[j]? = s.clients[j]?) ∧
      s1.clients.length = s.clients.length ∧
      s1.file = s.file ∧
      s1.trace = s.trace ++ [Action.readCall i sockfd, Action.disconnected sockfd,
          Action.closeCall sockfd] ++ (if ev.closeRet i < 0 then [Action.closeFailed] else []) ∧
      (∀ a b c d e, Action.writeDataCall a b c d e ∉ s1.trace.drop s.trace.length)) ∧
    (∀ (numClients : Int) (s2 : ServerState), (i : Int) ≤ numClients →
      readSockets numClients rset ev s = some s2 →
      s2.clients[i]? = some (-1) ∧ sockfd ∉ s2.aset) := by
  have hlt : i < s.clients.length := (List.getElem?_eq_some.mp hslot).1
  constructor
  · refine ⟨_, readSlot_zero rset ev i s sockfd hslot hocc hready hzero, ?_, ?_, ?_, ?_, rfl, ?_, ?_⟩
    · simp [closeSocket, List.getElem?_set, hlt]
    · simp [closeSocket]
    · intro j hj
      simp [closeSocket, List.getElem?_set, Ne.symm hj]
    · simp [closeSocket]
    · simp [closeSocket]
    · intro a b c d e
      simp only [closeSocket, List.append_assoc, List.drop_left]
      split <;> simp
  · intro numClients s2 hle hrun
    unfold readSockets at hrun
    have hfuel : (numClients + 1).toNat = i + (1 + ((numClients + 1).toNat - i - 1)) := by omega
    rw [hfuel] at hrun
    obtain ⟨sa, ha, hrest⟩ := readLoop_split rset ev i _ 0 s s2 hrun
    obtain ⟨sb, hb, hc⟩ := readLoop_split rset ev 1 _ (0 + i) sa s2 hrest
    obtain ⟨_, _, hsa⟩ := readLoop_other rset ev i 0 s sa ha
    have hslot1 : sa.clients[i]? = some sockfd := by
      rw [hsa i (by omega)]; exact hslot
    have hb1 : readSlot rset ev i sa = some sb := by
      simp only [readLoop, Nat.zero_add] at hb
      split at hb
      · simp at hb
      · rename_i s0 hs0
        simp only [Option.some.injEq] at hb
        rw [hs0, hb]
    rw [readSlot_zero rset ev i sa sockfd hslot1 hocc hready hzero] at hb1
    simp only [Option.some.injEq] at hb1
    obtain ⟨_, hsub, hsame⟩ := readLoop_other rset ev _ (0 + i + 1) sb s2 hc
    have hlt1 : i < sa.clients.length := (List.getElem?_eq_some.mp hslot1).1
    constructor
    · rw [hsame i (by omega), ← hb1]
      simp [closeSocket, List.getElem?_set, hlt1]
    · intro hmem
      have := hsub hmem
      rw [← hb1] at this
      simp [closeSocket] at this

/-- C4, at a table where slot 1 holds handle 5, which is ready and reads 0
bytes while `close` fails. -/
theorem C4_read_zero_releases_slot_witness :
    (∃ s1, readSlot {5}
        { selectRet := 1, ready := {5}, acceptRet := -1,
          readRes := fun _ => some [], closeRet := fun _ => -1 } 1
        { clients := [4, 5, -1, -1], aset := {3, 4, 5}, maxfd := 5, ndx := 1,
          file := none, trace := [] } = some s1 ∧
      s1.clients = [4, -1, -1, -1] ∧ s1.aset = {3, 4} ∧
      s1.trace = [Action.readCall 1 5, Action.disconnected 5, Action.closeCall 5,
        Action.closeFailed]) ∧
    ((∃ s1, readSlot {5}
        { selectRet := 1, ready := {5}, acceptRet := -1,
          readRes := fun _ => some [], closeRet := fun _ => -1 } 1
        { clients := [4, 5, -1, -1], aset := {3, 4, 5}, maxfd := 5, ndx := 1,
          file := none, trace := [] } = some s1 ∧
      s1.clients[1]? = some (-1) ∧ (5 : Int) ∉ s1.aset ∧
      (∀ j, j ≠ 1 → s1.clients[j]? = [(4 : Int), 5, -1, -1][j]?) ∧
      s1.clients.length = [(4 : Int), 5, -1, -1].length ∧
      s1.file = none ∧
      s1.trace = [] ++ [Action.readCall 1 5, Action.disconnected 5,
          Action.closeCall 5] ++ (if (-1 : Int) < 0 then [Action.closeFailed] else []) ∧
      (∀ a b c d e, Action.writeDataCall a b c d e ∉ s1.trace.drop 0)) ∧
    (∀ (numClients : Int) (s2 : ServerState), ((1 : Nat) : Int) ≤ numClients →
      readSockets numClients {5}
        { selectRet := 1, ready := {5}, acceptRet := -1,
          readRes := fun _ => some [], closeRet := fun _ => -1 }
        { clients := [4, 5, -1, -1], aset := {3, 4, 5}, maxfd := 5, ndx := 1,
          file := none, trace := [] } = some s2 →
      s2.clients[1]? = some (-1) ∧ (5 : Int) ∉ s2.aset)) :=
  ⟨⟨_, rfl, by decide, by decide, by decide⟩,
    C4_read_zero_releases_slot {5}
      { selectRet := 1, ready := {5}, acceptRet := -1,
        readRes := fun _ => some [], closeRet := fun _ => -1 } 1
      { clients := [4, 5, -1, -1], aset := {3, 4, 5}, maxfd := 5, ndx := 1,
        file := none, trace := [] } 5 (by decide) (by decide) (by decide) (by decide)⟩

/-- C5. When the loop of `readSockets` visits an occupied slot `i` whose handle
is in the ready set and `read` returns a negative value, the slot is not
released: the table, the set of all sockets and the data file are unchanged,
the only call made is the `read` (no `close`, no `writeData`), and the scan goes
on with slot `i + 1`. -/
theorem C5_read_error_keeps_slot (rset : Finset Int) (ev : Event) (i : Nat)
    (s : ServerState) (sockfd : Int)
    (hslot : s.clients[i]? = some sockfd) (hocc : 0 ≤ sockfd) (hready : sockfd ∈ rset)
    (hneg : (readMsg (ev.readRes i)).1 < 0) :
    ∃ s1, readSlot rset ev i s = some s1 ∧
      s1.clients = s.clients ∧ s1.aset = s.aset ∧ s1.file = s.file ∧
      s1.maxfd = s.maxfd ∧ s1.ndx = s.ndx ∧
      s1.clients[i]? = some sockfd ∧ sockfd ∈ rset ∧
      s1.trace = s.trace ++ [Action.readCall i sockfd, Action.readFailed] ∧
      (∀ fuel, readLoop rset ev (fuel + 1) i s = readLoop rset ev fuel (i + 1) s1) := by
  have h2 := readMsg_neg _ hneg
  have hstep : readSlot rset ev i s
      = some { s with trace := s.trace ++ [Action.readCall i sockfd, Action.readFailed] } := by
    unfold readSlot
    simp [hslot, not_lt.mpr hocc, hready, h2]
  refine ⟨_, hstep, rfl, rfl, rfl, rfl, rfl, hslot, hready, rfl, ?_⟩
  intro fuel
  simp only [readLoop, hstep]

/-- C5, at a table where slot 1 holds handle 5, which is ready and whose read
fails. -/
theorem C5_read_error_keeps_slot_witness :
    ∃ s1, readSlot {5}
        { selectRet := 1, ready := {5}, acceptRet := -1,
          readRes := fun _ => none, closeRet := fun _ => 0 } 1
        { clients := [4, 5, -1, -1], aset := {3, 4, 5}, maxfd := 5, ndx := 1,
          file := none, trace := [] } = some s1 ∧
      s1.clients = [4, 5, -1, -1] ∧ s1.aset = {3, 4, 5} ∧ s1.file = none ∧
      s1.maxfd = 5 ∧ s1.ndx = 1 ∧
      s1.clients[1]? = some 5 ∧ (5 : Int) ∈ ({5} : Finset Int) ∧
      s1.trace = [] ++ [Action.readCall 1 5, Action.readFailed] ∧
      (∀ fuel, readLoop {5}
          { selectRet := 1, ready := {5}, acceptRet := -1,
            readRes := fun _ => none, closeRet := fun _ => 0 } (fuel + 1) 1
          { clients := [4, 5, -1, -1], aset := {3, 4, 5}, maxfd := 5, ndx := 1,
            file := none, trace := [] }
        = readLoop {5}
          { selectRet := 1, ready := {5}, acceptRet := -1,
            readRes := fun _ => none, closeRet := fun _ => 0 } fuel (1 + 1) s1) :=
  C5_read_error_keeps_slot {5}
    { selectRet := 1, ready := {5}, acceptRet := -1,
      readRes := fun _ => none, closeRet := fun _ => 0 } 1
    { clients := [4, 5, -1, -1], aset := {3, 4, 5}, maxfd := 5, ndx := 1,
      file := none, trace := [] } 5 (by decide) (by decide) (by decide) (by decide)


/-! ## The invariant of the set of all sockets -/

theorem tableInv_init (FD_SETSIZE : Nat) (listenSock : Int) :
    TableInv listenSock (List.replicate FD_SETSIZE (-1)) {listenSock} := by
  refine ⟨fun fd => ?_, fun i j c hi _ hc => ?_, fun h => ?_⟩
  · constructor
    · intro h; left; simpa using h
    · rintro (h | ⟨h1, h2⟩)
      · simp [h]
      · have := List.eq_of_mem_replicate h2
        omega
  · have := List.eq_of_mem_replicate (List.mem_iff_getElem?.mpr ⟨i, hi⟩)
    omega
  · have := List.eq_of_mem_replicate h
    omega

theorem tableInv_release (listenSock : Int) (clients : List Int) (aset : Finset Int)
    (i : Nat) (sockfd : Int) (hinv : TableInv listenSock clients aset)
    (hslot : clients[i]? = some sockfd) (hocc : 0 ≤ sockfd) :
    TableInv listenSock (clients.set i (-1)) (aset.erase sockfd) := by
  obtain ⟨h1, h2, h3⟩ := hinv
  have hmem : sockfd ∈ clients := List.mem_iff_getElem?.mpr ⟨i, hslot⟩
  refine ⟨fun fd => ?_, fun a b c ha hb hc => ?_, fun h => ?_⟩
  · rw [Finset.mem_erase, h1]
    constructor
    · rintro ⟨hne, h | ⟨hfd, hin⟩⟩
      · exact Or.inl h
      · right
        refine ⟨hfd, ?_⟩
        obtain ⟨j, hj⟩ := List.mem_iff_getElem?.mp hin
        have hji : i ≠ j := by
          rintro rfl
          rw [hslot] at hj
          exact hne (Option.some.inj hj).symm
        exact List.mem_iff_getElem?.mpr ⟨j, by rw [List.getElem?_set_ne hji]; exact hj⟩
    · rintro (h | ⟨hfd, hin⟩)
      · refine ⟨?_, Or.inl h⟩
        rintro rfl
        have := h3 (h ▸ hmem)
        omega
      · obtain ⟨j, hj⟩ := List.mem_iff_getElem?.mp hin
        have hji : i ≠ j := by
          rintro rfl
          rw [List.getElem?_set] at hj
          simp only [if_true] at hj
          split at hj
          · have := Option.some.inj hj
            omega
          · simp at hj
        rw [List.getElem?_set_ne hji] at hj
        refine ⟨?_, Or.inr ⟨hfd, List.mem_iff_getElem?.mpr ⟨j, hj⟩⟩⟩
        rintro rfl
        exact hji (h2 i j fd hslot hj hfd)
  · have key : ∀ k : Nat, (clients.set i (-1))[k]? = some c → clients[k]? = some c := by
      intro k hk
      by_cases hki : i = k
      · subst hki
        rw [List.getElem?_set] at hk
        simp only [if_true] at hk
        split at hk
        · have := Option.some.inj hk
          omega
        · simp at hk
      · rw [List.getElem?_set_ne hki] at hk
        exact hk
    exact h2 a b c (key a ha) (key b hb) hc
  · rcases List.mem_or_eq_of_mem_set h with h | h
    · exact h3 h
    · omega

theorem tableInv_store (listenSock : Int) (clients : List Int) (aset : Finset Int)
    (k : Nat) (rcvSock c : Int) (hinv : TableInv listenSock clients aset)
    (hslot : clients[k]? = some c) (hneg : c < 0) (hocc : 0 ≤ rcvSock)
    (hne : rcvSock ≠ listenSock) (hnew : rcvSock ∉ clients) :
    TableInv listenSock (clients.set k rcvSock) (insert rcvSock aset) := by
  obtain ⟨h1, h2, h3⟩ := hinv
  have hk : k < clients.length := (List.getElem?_eq_some.mp hslot).1
  have hget : ∀ (j : Nat) (d : Int), (clients.set k rcvSock)[j]? = some d →
      (j = k ∧ d = rcvSock) ∨ (j ≠ k ∧ clients[j]? = some d) := by
    intro j d hj
    by_cases hjk : k = j
    · subst hjk
      rw [List.getElem?_set] at hj
      simp only [if_true, hk] at hj
      exact Or.inl ⟨rfl, (Option.some.inj hj).symm⟩
    · rw [List.getElem?_set_ne hjk] at hj
      exact Or.inr ⟨Ne.symm hjk, hj⟩
  refine ⟨fun fd => ?_, fun a b d ha hb hd => ?_, fun h => ?_⟩
  · rw [Finset.mem_insert, h1]
    constructor
    · rintro (h | h | ⟨hfd, hin⟩)
      · right
        subst h
        exact ⟨hocc, List.mem_iff_getElem?.mpr ⟨k, by simp [List.getElem?_set, hk]⟩⟩
      · exact Or.inl h
      · right
        refine ⟨hfd, ?_⟩
        obtain ⟨j, hj⟩ := List.mem_iff_getElem?.mp hin
        have hjk : k ≠ j := by
          rintro rfl
          rw [hslot] at hj
          have := Option.some.inj hj
          omega
        exact List.mem_iff_getElem?.mpr ⟨j, by rw [List.getElem?_set_ne hjk]; exact hj⟩
    · rintro (h | ⟨hfd, hin⟩)
      · exact Or.inr (Or.inl h)
      · obtain ⟨j, hj⟩ := List.mem_iff_getElem?.mp hin
        rcases hget j fd hj with ⟨_, h⟩ | ⟨_, h⟩
        · exact Or.inl h
        · exact Or.inr (Or.inr ⟨hfd, List.mem_iff_getElem?.mpr ⟨j, h⟩⟩)
  · rcases hget a d ha with ⟨ha1, ha2⟩ | ⟨ha1, ha2⟩ <;>
      rcases hget b d hb with ⟨hb1, hb2⟩ | ⟨hb1, hb2⟩
    · omega
    · exact absurd (List.mem_iff_getElem?.mpr ⟨b, hb2⟩) (ha2 ▸ hnew)
    · exact absurd (List.mem_iff_getElem?.mpr ⟨a, ha2⟩) (hb2 ▸ hnew)
    · exact h2 a b d ha2 hb2 hd
  · obtain ⟨j, hj⟩ := List.mem_iff_getElem?.mp h
    rcases hget j listenSock hj with ⟨_, h⟩ | ⟨_, h⟩
    · exact absurd h.symm hne
    · exact h3 (List.mem_iff_getElem?.mpr ⟨j, h⟩)

theorem tableInv_readSlot (listenSock : Int) (rset : Finset Int) (ev : Event) (i : Nat)
    (s s1 : ServerState) (hinv : TableInv listenSock s.clients s.aset)
    (h : readSlot rset ev i s = some s1) : TableInv listenSock s1.clients s1.aset := by
  obtain ⟨_, _, ⟨hc, ha⟩ | ⟨sockfd, hs, hocc, _, hc, ha⟩⟩ := readSlot_cases rset ev i s s1 h
  · rw [hc, ha]; exact hinv
  · rw [hc, ha]; exact tableInv_release listenSock s.clients s.aset i sockfd hinv hs hocc

theorem tableInv_readLoop (listenSock : Int) (rset : Finset Int) (ev : Event) :
    ∀ (fuel i : Nat) (s s1 : ServerState), TableInv listenSock s.clients s.aset →
      readLoop rset ev fuel i s = some s1 → TableInv listenSock s1.clients s1.aset := by
  intro fuel
  induction fuel with
  | zero =>
    intro i s s1 hinv h
    simp only [readLoop, Option.some.injEq] at h
    subst h; exact hinv
  | succ fuel ih =>
    intro i s s1 hinv h
    simp only [readLoop] at h
    split at h
    · simp at h
    · rename_i s2 hs2
      exact ih (i + 1) s2 s1 (tableInv_readSlot listenSock rset ev i s s2 hinv hs2) h

theorem saveLoop_cases (rcvSock : Int) :
    ∀ (fuel ndx : Nat) (clients clients1 : List Int) (k : Nat),
      saveLoop rcvSock fuel ndx clients = some (clients1, k) →
      (k = ndx + fuel ∧ clients1 = clients) ∨
      (k < ndx + fuel ∧ ∃ c, clients[k]? = some c ∧ c < 0 ∧ clients1 = clients.set k rcvSock) := by
  intro fuel
  induction fuel with
  | zero =>
    intro ndx clients clients1 k h
    simp only [saveLoop, Option.some.injEq, Prod.mk.injEq] at h
    exact Or.inl ⟨by omega, h.1.symm⟩
  | succ fuel ih =>
    intro ndx clients clients1 k h
    simp only [saveLoop] at h
    split at h
    · simp at h
    · rename_i c hc
      split at h
      · rename_i hneg
        simp only [Option.some.injEq, Prod.mk.injEq] at h
        obtain ⟨h1, h2⟩ := h
        subst h2
        exact Or.inr ⟨by omega, c, hc, hneg, h1.symm⟩
      · rcases ih (ndx + 1) clients clients1 k h with ⟨h1, h2⟩ | ⟨h1, h2⟩
        · exact Or.inl ⟨by omega, h2⟩
        · exact Or.inr ⟨by omega, h2⟩

theorem tableInv_pass (FD_SETSIZE : Nat) (listenSock : Int) (s s1 : ServerState) (ev : Event)
    (hinv : TableInv listenSock s.clients s.aset) (hfresh : freshAccept listenSock s ev)
    (h : monitorPass FD_SETSIZE listenSock s ev = some s1) :
    TableInv listenSock s1.clients s1.aset ∧ s1.clients.length = s.clients.length := by
  unfold monitorPass at h
  simp only at h
  split at h
  · rename_i hready
    split at h
    · simp only [Option.some.injEq] at h; subst h; exact ⟨hinv, rfl⟩
    · rename_i hacc
      obtain ⟨hne, hnew⟩ := hfresh hready (by omega)
      split at h
      · simp at h
      · rename_i clients ndx hsave
        rcases saveLoop_cases ev.acceptRet FD_SETSIZE 0 s.clients clients ndx hsave with
          ⟨hk, hcl⟩ | ⟨hk, c, hc, hneg, hcl⟩
        · rw [if_pos (by omega)] at h
          simp only [Option.some.injEq] at h; subst h
          subst hcl
          exact ⟨hinv, rfl⟩
        · rw [if_neg (by omega)] at h
          have hinv2 : TableInv listenSock clients (insert ev.acceptRet s.aset) := by
            rw [hcl]
            exact tableInv_store listenSock s.clients s.aset ndx ev.acceptRet c hinv hc hneg
              (by omega) hne hnew
          have hlen2 : clients.length = s.clients.length := by rw [hcl]; simp
          split at h
          · simp only [Option.some.injEq] at h; subst h
            exact ⟨hinv2, hlen2⟩
          · unfold readSockets at h
            refine ⟨tableInv_readLoop listenSock _ ev _ 0 _ s1 hinv2 h, ?_⟩
            rw [(readLoop_other _ ev _ 0 _ s1 h).1]
            exact hlen2
  · unfold readSockets at h
    exact ⟨tableInv_readLoop listenSock _ ev _ 0 s s1 hinv h, (readLoop_other _ ev _ 0 s s1 h).1⟩

theorem tableInv_run (FD_SETSIZE : Nat) (listenSock : Int) :
    ∀ (evs : List Event) (s s1 : ServerState), TableInv listenSock s.clients s.aset →
      freshAccepts FD_SETSIZE listenSock s evs →
      monitorSockets FD_SETSIZE listenSock s evs = some s1 →
      TableInv listenSock s1.clients s1.aset ∧ s1.clients.length = s.clients.length := by
  intro evs
  induction evs with
  | nil =>
    intro s s1 hinv _ h
    simp only [monitorSockets, Option.some.injEq] at h
    subst h; exact ⟨hinv, rfl⟩
  | cons ev evs ih =>
    intro s s1 hinv hfresh h
    simp only [monitorSockets] at h
    simp only [freshAccepts] at hfresh
    obtain ⟨hf1, hf2⟩ := hfresh
    split at h
    · simp at h
    · rename_i s2 hs2
      rw [hs2] at hf2
      obtain ⟨hi2, hl2⟩ := tableInv_pass FD_SETSIZE listenSock s s2 ev hinv hf1 hs2
      obtain ⟨hi3, hl3⟩ := ih s2 s1 hi2 hf2 h
      exact ⟨hi3, by omega⟩

theorem tableInv_aset (listenSock : Int) (clients : List Int) (aset : Finset Int)
    (hinv : TableInv listenSock clients aset) :
    aset = insert listenSock (clients.filter (fun c => 0 ≤ c)).toFinset := by
  ext fd
  rw [hinv.1 fd]
  simp only [Finset.mem_insert, List.mem_toFinset, List.mem_filter, decide_eq_true_eq]
  tauto

/-- C3. Assume that every successful `accept` returns a handle different from
the listening socket and not stored in `clients`. Then in every state in which a
pass of the loop of `monitorSockets` starts (the state `runServer` sets up, and
the state after any number of completed passes, whatever they did: accept and
register, accept with a full table, failed accept, read with data, failed read,
read of 0 bytes) the table has `FD_SETSIZE` slots and the set of all sockets is
exactly the listening socket together with the handles of the occupied slots. -/
theorem C3_aset_invariant (FD_SETSIZE : Nat) (listenSock ndx0 : Int)
    (file0 : Option (List Char)) (evs : List Event) (s : ServerState)
    (hfresh : freshAccepts FD_SETSIZE listenSock
      (runServer FD_SETSIZE listenSock ndx0 file0) evs)
    (hrun : monitorSockets FD_SETSIZE listenSock
      (runServer FD_SETSIZE listenSock ndx0 file0) evs = some s) :
    s.clients.length = FD_SETSIZE ∧
      s.aset = insert listenSock (s.clients.filter (fun c => 0 ≤ c)).toFinset := by
  obtain ⟨hinv, hlen⟩ := tableInv_run FD_SETSIZE listenSock evs _ s
    (tableInv_init FD_SETSIZE listenSock) hfresh hrun
  exact ⟨by rw [hlen]; simp [runServer], tableInv_aset listenSock s.clients s.aset hinv⟩

/-- C3, on a run in which two clients connect, the first one sends a report and
then closes, and a third client connects. -/
theorem C3_aset_invariant_witness :
    freshAccepts 4 3 (runServer 4 3 0 none)
      [acceptEvent 3 4, acceptEvent 3 5, readEvent 4 (some "t i n 1 2".toList),
        readEvent 4 (some []), acceptEvent 3 6] ∧
    (∃ s, monitorSockets 4 3 (runServer 4 3 0 none)
      [acceptEvent 3 4, acceptEvent 3 5, readEvent 4 (some "t i n 1 2".toList),
        readEvent 4 (some []), acceptEvent 3 6] = some s ∧
      s.clients = [6, 5, -1, -1] ∧ s.aset = {3, 5, 6} ∧
      s.clients.length = 4 ∧
      s.aset = insert 3 (s.clients.filter (fun c => 0 ≤ c)).toFinset) :=
  ⟨by decide, _, rfl, by decide, by decide,
    C3_aset_invariant 4 3 0 none
      [acceptEvent 3 4, acceptEvent 3 5, readEvent 4 (some "t i n 1 2".toList),
        readEvent 4 (some []), acceptEvent 3 6] _ (by decide) rfl⟩

/-! ## The scan bound of `readSockets` -/

theorem eq_some_of_exists {α : Type} (o : Option α) (a : α) (h : ∃ b, o = some b ∧ b = a) :
    o = some a := by
  obtain ⟨b, h1, h2⟩ := h
  rw [h1, h2]

set_option maxRecDepth 100000 in
/-- C1 fails on the code. With `FD_SETSIZE = 1024` and listening socket 3:
clients 4 and 5 connect (slots 0 and 1), client 4 closes, a new client connects
and gets slot 0, which sets `ndx` to 0. In the next pass client 5, which
occupies slot 1, is ready and sends a report; `readSockets` is called with
`numClients = 0`, below the occupied slot 1, and the pass ends without any call
made: slot 1 is not read and no record is written. -/
theorem C1_ready_slot_not_read :
    monitorSockets 1024 3 (runServer 1024 3 0 none) reconnectEvents = some reconnectState ∧
    reconnectState.clients[1]? = some 5 ∧
    (5 : Int) ∈ selectReady reconnectState.aset (readEvent 5 (some aliceMsg)) ∧
    (3 : Int) ∉ selectReady reconnectState.aset (readEvent 5 (some aliceMsg)) ∧
    reconnectState.ndx = 0 ∧
    monitorPass 1024 3 reconnectState (readEvent 5 (some aliceMsg))
      = readSockets 0 (selectReady reconnectState.aset (readEvent 5 (some aliceMsg)))
          (readEvent 5 (some aliceMsg)) reconnectState ∧
    monitorPass 1024 3 reconnectState (readEvent 5 (some aliceMsg)) = some reconnectState ∧
    Action.readCall 1 5 ∉ reconnectState.trace := by
  have hpass : monitorPass 1024 3 reconnectState (readEvent 5 (some aliceMsg))
      = some reconnectState := eq_some_of_exists _ _ ⟨_, rfl, by decide⟩
  refine ⟨eq_some_of_exists _ _ ⟨_, rfl, by decide⟩, by decide, by decide, by decide, rfl,
    ?_, hpass, by decide⟩
  rw [hpass]
  exact (eq_some_of_exists _ _ ⟨_, rfl, by decide⟩).symm

/-! ## A full table -/

theorem monitorSockets_append (FD_SETSIZE : Nat) (listenSock : Int) :
    ∀ (evs evs1 : List Event) (s : ServerState),
      monitorSockets FD_SETSIZE listenSock s (evs ++ evs1)
        = (monitorSockets FD_SETSIZE listenSock s evs).bind
            (fun s1 => monitorSockets FD_SETSIZE listenSock s1 evs1) := by
  intro evs
  induction evs with
  | nil => intro evs1 s; simp [monitorSockets]
  | cons ev evs ih =>
    intro evs1 s
    simp only [List.cons_append, monitorSockets]
    cases monitorPass FD_SETSIZE listenSock s ev with
    | none => simp
    | some s1 => simpa using ih evs1 s1

/-- A pass that accepts a connection when slot `k` is the lowest empty slot and
no other socket is ready. -/
theorem monitorPass_store (FD_SETSIZE : Nat) (listenSock : Int) (s : ServerState) (ev : Event)
    (k : Nat) (c : Int) (hlen : s.clients.length = FD_SETSIZE)
    (hready : listenSock ∈ selectReady s.aset ev) (hacc : 0 ≤ ev.acceptRet)
    (hone : ev.selectRet ≤ 1)
    (hk : s.clients[k]? = some c) (hneg : c < 0)
    (hbelow : ∀ j, j < k → ∃ d, s.clients[j]? = some d ∧ 0 ≤ d) :
    monitorPass FD_SETSIZE listenSock s ev = some
      { s with
        clients := s.clients.set k ev.acceptRet, ndx := k,
        trace := s.trace ++ [Action.acceptCall, Action.connected],
        aset := insert ev.acceptRet s.aset,
        maxfd := if ev.acceptRet > s.maxfd then ev.acceptRet else s.maxfd } := by
  have hklt : k < FD_SETSIZE := by
    rw [← hlen]; exact (List.getElem?_eq_some.mp hk).1
  unfold monitorPass
  simp only [hready, if_true, not_lt.mpr hacc, if_false,
    saveSlot_lowest FD_SETSIZE s.clients ev.acceptRet k hlen c hk hneg hbelow]
  rw [if_neg (by omega), if_pos (by omega)]

/-- A pass that accepts a connection when no slot is empty: the table and the
set of all sockets stay as they are, `ndx` becomes `FD_SETSIZE`, and the calls
made are the `accept` and two log lines. -/
theorem monitorPass_full (FD_SETSIZE : Nat) (listenSock : Int) (s : ServerState) (ev : Event)
    (hlen : s.clients.length = FD_SETSIZE)
    (hready : listenSock ∈ selectReady s.aset ev) (hacc : 0 ≤ ev.acceptRet)
    (hfull : ∀ c ∈ s.clients, 0 ≤ c) :
    monitorPass FD_SETSIZE listenSock s ev = some
      { s with
        ndx := FD_SETSIZE,
        trace := s.trace ++ [Action.acceptCall, Action.connected, Action.cantAccept] } := by
  unfold monitorPass
  simp [hready, not_lt.mpr hacc, saveSlot_full FD_SETSIZE s.clients ev.acceptRet hlen hfull]

theorem listen_ready_acceptEvent (listenSock rcvSock : Int) (aset : Finset Int)
    (h : listenSock ∈ aset) : listenSock ∈ selectReady aset (acceptEvent listenSock rcvSock) := by
  simp [selectReady, acceptEvent, h]

/-- C6. With an array of `FD_SETSIZE` slots the slot search always ends; it
either stores the accepted handle in the lowest-indexed empty slot `k` (the
slots below `k` are occupied, no other slot changes, `ndx = k`), or it leaves
the array as it is with `ndx = FD_SETSIZE`; the latter happens exactly when no
slot is empty. Hence a slot `i` released by `closeSocket` while all slots below
it are occupied is the slot the next accepted handle is stored in. A pass of
`monitorSockets` in which the listening socket is the only ready socket and
`accept` succeeds ends with the table and the `ndx` the slot search produces. -/
theorem C6_lowest_empty_slot (FD_SETSIZE : Nat) (s : ServerState) (rcvSock : Int)
    (hlen : s.clients.length = FD_SETSIZE) :
    (∃ clients ndx, saveSlot FD_SETSIZE s.clients rcvSock = some (clients, ndx) ∧
      ((ndx < FD_SETSIZE ∧ (∃ c, s.clients[ndx]? = some c ∧ c < 0) ∧
          (∀ j, j < ndx → ∃ c, s.clients[j]? = some c ∧ 0 ≤ c) ∧
          clients = s.clients.set ndx rcvSock ∧ clients[ndx]? = some rcvSock ∧
          (∀ j, j ≠ ndx → clients[j]? = s.clients[j]?)) ∨
        (ndx = FD_SETSIZE ∧ clients = s.clients)) ∧
      (ndx = FD_SETSIZE ↔ ∀ c ∈ s.clients, 0 ≤ c)) ∧
    (∀ (i : Nat) (sck closeRet : Int), i < FD_SETSIZE →
      (∀ j, j < i → ∃ c, s.clients[j]? = some c ∧ 0 ≤ c) →
      saveSlot FD_SETSIZE (closeSocket sck i closeRet s).clients rcvSock
        = some ((closeSocket sck i closeRet s).clients.set i rcvSock, i) ∧
      ((closeSocket sck i closeRet s).clients.set i rcvSock)[i]? = some rcvSock) ∧
    (∀ (listenSock : Int) (ev : Event), listenSock ∈ selectReady s.aset ev →
      ev.acceptRet = rcvSock → 0 ≤ rcvSock → ev.selectRet ≤ 1 →
      ∃ s1 ndx, monitorPass FD_SETSIZE listenSock s ev = some s1 ∧
        saveSlot FD_SETSIZE s.clients rcvSock = some (s1.clients, ndx) ∧
        s1.ndx = (ndx : Int)) := by
  refine ⟨?_, ?_, ?_⟩
  · rcases saveLoop_spec rcvSock FD_SETSIZE 0 s.clients (by omega) with
      ⟨k, _, hk2, ⟨c, hc, hneg⟩, hk4, hk5⟩ | ⟨h1, h2⟩
    · refine ⟨s.clients.set k rcvSock, k, hk5, Or.inl ⟨by omega, ⟨c, hc, hneg⟩,
        fun j hj => hk4 j (Nat.zero_le _) hj, rfl, ?_, ?_⟩, ?_⟩
      · simp [List.getElem?_set, hk2]
      · intro j hj
        simp [List.getElem?_set, Ne.symm hj]
      · constructor
        · intro h; omega
        · intro h
          have := h c (List.mem_iff_getElem?.mpr ⟨k, hc⟩)
          omega
    · refine ⟨s.clients, FD_SETSIZE, by rw [saveSlot, h2, hlen], Or.inr ⟨rfl, rfl⟩, ?_⟩
      constructor
      · intro _ c hc
        obtain ⟨j, hj⟩ := List.mem_iff_getElem?.mp hc
        obtain ⟨d, hd1, hd2⟩ := h1 j (Nat.zero_le _) (List.getElem?_eq_some.mp hj).1
        rw [hj] at hd1; cases hd1; exact hd2
      · intro _; rfl
  · intro i sck closeRet hi hbelow
    have hcl : (closeSocket sck i closeRet s).clients = s.clients.set i (-1) := rfl
    rw [hcl]
    constructor
    · have h := saveSlot_lowest FD_SETSIZE (s.clients.set i (-1)) rcvSock i (by simp [hlen]) (-1)
        (by simp [List.getElem?_set, hlen, hi]) (by decide)
        (fun j hj => by
          obtain ⟨d, hd1, hd2⟩ := hbelow j hj
          exact ⟨d, by rw [List.getElem?_set_ne (by omega)]; exact hd1, hd2⟩)
      exact h
    · simp [List.getElem?_set, hlen, hi]
  · intro listenSock ev hready hret hocc hone
    subst hret
    rcases saveLoop_spec ev.acceptRet FD_SETSIZE 0 s.clients (by omega) with
      ⟨k, _, _, ⟨c, hc, hneg⟩, hk4, hk5⟩ | ⟨h1, h2⟩
    · exact ⟨_, k, monitorPass_store FD_SETSIZE listenSock s ev k c hlen hready hocc hone hc hneg
        (fun j hj => hk4 j (Nat.zero_le _) hj), hk5, rfl⟩
    · have hfull : ∀ c ∈ s.clients, 0 ≤ c := by
        intro c hc
        obtain ⟨j, hj⟩ := List.mem_iff_getElem?.mp hc
        obtain ⟨d, hd1, hd2⟩ := h1 j (Nat.zero_le _) (List.getElem?_eq_some.mp hj).1
        rw [hj] at hd1; cases hd1; exact hd2
      exact ⟨_, FD_SETSIZE, monitorPass_full FD_SETSIZE listenSock s ev hlen hready hocc hfull,
        saveSlot_full FD_SETSIZE s.clients ev.acceptRet hlen hfull, rfl⟩

/-- C6, at a table of four slots in which slots 0 and 1 are occupied. -/
theorem C6_lowest_empty_slot_witness :
    (∃ clients ndx, saveSlot 4 [4, 5, -1, -1] 9 = some (clients, ndx) ∧
      ((ndx < 4 ∧ (∃ c, [(4 : Int), 5, -1, -1][ndx]? = some c ∧ c < 0) ∧
          (∀ j, j < ndx → ∃ c, [(4 : Int), 5, -1, -1][j]? = some c ∧ 0 ≤ c) ∧
          clients = [(4 : Int), 5, -1, -1].set ndx 9 ∧ clients[ndx]? = some 9 ∧
          (∀ j, j ≠ ndx → clients[j]? = [(4 : Int), 5, -1, -1][j]?)) ∨
        (ndx = 4 ∧ clients = [4, 5, -1, -1])) ∧
      (ndx = 4 ↔ ∀ c ∈ [(4 : Int), 5, -1, -1], 0 ≤ c)) ∧
    saveSlot 4 [4, 5, -1, -1] 9 = some ([4, 5, 9, -1], 2) :=
  ⟨(C6_lowest_empty_slot 4
      { clients := [4, 5, -1, -1], aset := {3, 4, 5}, maxfd := 5, ndx := 1,
        file := none, trace := [] } 9 rfl).1, by decide⟩


/-- The state after `n` clients have connected to a fresh server. -/
theorem acceptEvents_run (FD_SETSIZE : Nat) (listenSock ndx0 : Int) (file0 : Option (List Char))
    (base : Int) (hbase : 0 ≤ base) :
    ∀ n, n ≤ FD_SETSIZE →
      ∃ s, monitorSockets FD_SETSIZE listenSock (runServer FD_SETSIZE listenSock ndx0 file0)
          (acceptEvents listenSock base n) = some s ∧
        s.clients.length = FD_SETSIZE ∧
        (∀ j : Nat, j < n → s.clients[j]? = some (base + j)) ∧
        (∀ j : Nat, n ≤ j → j < FD_SETSIZE → s.clients[j]? = some (-1)) ∧
        listenSock ∈ s.aset ∧
        (∀ fd ∈ s.aset, fd = listenSock ∨ (base ≤ fd ∧ fd < base + n)) ∧
        (∀ j : Nat, j < n → base + j ∈ s.aset) ∧
        (∀ a ∈ s.trace, a = Action.acceptCall ∨ a = Action.connected) ∧
        (0 < n → s.ndx = ((n - 1 : Nat) : Int)) := by
  intro n
  induction n with
  | zero =>
    intro _
    refine ⟨_, rfl, by simp [runServer], fun j hj => by omega, fun j _ hj => ?_,
      by simp [runServer], fun fd hfd => ?_, fun j hj => by omega, by simp [runServer],
      fun h => by omega⟩
    · simp [runServer, hj]
    · left; simpa [runServer] using hfd
  | succ n ih =>
    intro hn
    obtain ⟨s, hrun, hlen, hlow, hhigh, hL, haset, hin, htrace, _⟩ := ih (by omega)
    have hev : acceptEvents listenSock base (n + 1)
        = acceptEvents listenSock base n ++ [acceptEvent listenSock (base + n)] := by
      simp [acceptEvents, List.range_succ]
    have hpass := monitorPass_store FD_SETSIZE listenSock s (acceptEvent listenSock (base + n))
      n (-1) hlen (listen_ready_acceptEvent _ _ _ hL) (by simp [acceptEvent]; omega)
      (by simp [acceptEvent]) (hhigh n (le_refl _) (by omega)) (by decide)
      (fun j hj => ⟨base + j, hlow j hj, by omega⟩)
    refine ⟨{ s with
        clients := s.clients.set n (base + n), ndx := n,
        trace := s.trace ++ [Action.acceptCall, Action.connected],
        aset := insert (base + n) s.aset,
        maxfd := if base + n > s.maxfd then base + n else s.maxfd },
      ?_, ?_, ?_, ?_, ?_, ?_, ?_, ?_, ?_⟩
    · rw [hev, monitorSockets_append, hrun]
      show (match monitorPass FD_SETSIZE listenSock s (acceptEvent listenSock (base + n)) with
        | none => none
        | some s1 => some s1) = _
      rw [hpass]
      rfl
    · simp [hlen]
    · intro j hj
      by_cases hjn : j = n
      · subst hjn
        simp [List.getElem?_set, acceptEvent, hlen]
        omega
      · simp only
        rw [List.getElem?_set_ne (Ne.symm hjn)]
        exact hlow j (by omega)
    · intro j hj1 hj2
      simp only
      rw [List.getElem?_set_ne (by omega)]
      exact hhigh j (by omega) hj2
    · simp [hL]
    · intro fd hfd
      simp only [Finset.mem_insert] at hfd
      rcases hfd with h | h
      · right
        subst h
        constructor <;> push_cast <;> omega
      · rcases haset fd h with h | ⟨h1, h2⟩
        · exact Or.inl h
        · right
          constructor
          · exact h1
          · push_cast; omega
    · intro j hj
      simp only [Finset.mem_insert]
      by_cases hjn : j = n
      · left; rw [hjn]
      · right; exact hin j (by omega)
    · intro a ha
      simp only [List.mem_append, List.mem_cons, List.mem_singleton, List.not_mem_nil,
        or_false] at ha
      rcases ha with h | h | h
      · exact htrace a h
      · exact Or.inl h
      · exact Or.inr h
    · intro _
      simp

theorem monitorPass_read (FD_SETSIZE : Nat) (listenSock : Int) (s : ServerState) (ev : Event)
    (h : listenSock ∉ selectReady s.aset ev) :
    monitorPass FD_SETSIZE listenSock s ev
      = readSockets s.ndx (selectReady s.aset ev) ev s := by
  unfold monitorPass
  simp [h]

/-- A scan that goes on beyond the last slot of the table reads outside the
array. -/
theorem readLoop_outside (rset : Finset Int) (ev : Event) :
    ∀ (fuel i : Nat) (s : ServerState), i ≤ s.clients.length → s.clients.length < i + fuel →
      readLoop rset ev fuel i s = none := by
  intro fuel
  induction fuel with
  | zero => intro i s h1 h2; omega
  | succ fuel ih =>
    intro i s h1 h2
    simp only [readLoop]
    split
    · rfl
    · rename_i s1 hs1
      have hlt : i < s.clients.length := by
        by_contra hge
        have hnone : s.clients[i]? = none := List.getElem?_eq_none (by omega)
        unfold readSlot at hs1
        simp [hnone] at hs1
      have hlen := (readSlot_other rset ev i s s1 hs1).1
      exact ih (i + 1) s1 (by omega) (by omega)

theorem readSockets_outside (numClients : Int) (rset : Finset Int) (ev : Event)
    (s : ServerState) (h : (s.clients.length : Int) ≤ numClients) :
    readSockets numClients rset ev s = none := by
  unfold readSockets
  exact readLoop_outside rset ev _ 0 s (Nat.zero_le _) (by omega)

/-- C2 fails on the code. With `FD_SETSIZE = 1024` and listening socket 3, let
1024 clients connect (handles 4 to 1027), which fills the table. When a further
connection is accepted with handle 1028, the pass logs that no more clients can
be accepted and ends: the new handle is stored neither in `clients` nor in the
set of all sockets, and `close` is not called on it. -/
theorem C2_full_table_socket_not_closed :
    ∃ s s1, monitorSockets 1024 3 (runServer 1024 3 0 none) (acceptEvents 3 4 1024) = some s ∧
      s.clients.length = 1024 ∧ (∀ c ∈ s.clients, 0 ≤ c) ∧
      (3 : Int) ∈ selectReady s.aset (acceptEvent 3 1028) ∧
      (acceptEvent 3 1028).acceptRet = 1028 ∧
      monitorPass 1024 3 s (acceptEvent 3 1028) = some s1 ∧
      s1.trace = s.trace ++ [Action.acceptCall, Action.connected, Action.cantAccept] ∧
      Action.closeCall 1028 ∉ s1.trace ∧
      s1.trace.count (Action.closeCall 1028) = 0 ∧
      s1.clients = s.clients ∧ s1.aset = s.aset ∧
      (1028 : Int) ∉ s1.clients ∧ (1028 : Int) ∉ s1.aset := by
  obtain ⟨s, hrun, hlen, hlow, _, hL, haset, _, htrace, _⟩ :=
    acceptEvents_run 1024 3 0 none 4 (by decide) 1024 (le_refl _)
  have hmem : ∀ c ∈ s.clients, 4 ≤ c ∧ c < 1028 := by
    intro c hc
    obtain ⟨j, hj⟩ := List.mem_iff_getElem?.mp hc
    have hjlt : j < 1024 := by
      rw [← hlen]; exact (List.getElem?_eq_some.mp hj).1
    rw [hlow j hjlt] at hj
    have := Option.some.inj hj
    omega
  have hfull : ∀ c ∈ s.clients, 0 ≤ c := fun c hc => by have := hmem c hc; omega
  have hready := listen_ready_acceptEvent 3 1028 s.aset hL
  have hpass := monitorPass_full 1024 3 s (acceptEvent 3 1028) hlen hready (by decide) hfull
  have hnot : Action.closeCall 1028 ∉
      s.trace ++ [Action.acceptCall, Action.connected, Action.cantAccept] := by
    intro h
    simp only [List.mem_append, List.mem_cons, List.mem_singleton, List.not_mem_nil,
      or_false] at h
    rcases h with h | h | h | h
    · rcases htrace _ h with h | h <;> cases h
    · cases h
    · cases h
    · cases h
  refine ⟨s, _, hrun, hlen, hfull, hready, rfl, hpass, rfl, hnot,
    List.count_eq_zero.mpr hnot, rfl, rfl, ?_, ?_⟩
  · intro h
    have := hmem _ h
    omega
  · intro h
    rcases haset _ h with h | h <;> omega

/-- C9 fails on the code. With `FD_SETSIZE = 1024` and listening socket 3, let
1024 clients connect (handles 4 to 1027) and one more connection be accepted
while the table is full: the slot search leaves `ndx = 1024`. In the next pass
client 4 is ready; `readSockets` is called with `numClients = 1024 = FD_SETSIZE`,
its loop goes up to `i = 1024` and reads `clients[1024]`, outside the array. -/
theorem C9_scan_reads_outside_table :
    ∃ s, monitorSockets 1024 3 (runServer 1024 3 0 none)
          (acceptEvents 3 4 1024 ++ [acceptEvent 3 1028]) = some s ∧
      s.clients.length = 1024 ∧ s.ndx = 1024 ∧
      (4 : Int) ∈ selectReady s.aset (readEvent 4 (some aliceMsg)) ∧
      (3 : Int) ∉ selectReady s.aset (readEvent 4 (some aliceMsg)) ∧
      monitorPass 1024 3 s (readEvent 4 (some aliceMsg))
        = readSockets 1024 (selectReady s.aset (readEvent 4 (some aliceMsg)))
            (readEvent 4 (some aliceMsg)) s ∧
      ¬ ((1024 : Int) < 1024) ∧
      s.clients[1024]? = none ∧
      readSockets 1024 (selectReady s.aset (readEvent 4 (some aliceMsg)))
        (readEvent 4 (some aliceMsg)) s = none ∧
      monitorSockets 1024 3 (runServer 1024 3 0 none)
        (acceptEvents 3 4 1024 ++ [acceptEvent 3 1028] ++ [readEvent 4 (some aliceMsg)]) = none := by
  obtain ⟨s, hrun, hlen, hlow, _, hL, haset, hin, htrace, _⟩ :=
    acceptEvents_run 1024 3 0 none 4 (by decide) 1024 (le_refl _)
  have hfull : ∀ c ∈ s.clients, 0 ≤ c := by
    intro c hc
    obtain ⟨j, hj⟩ := List.mem_iff_getElem?.mp hc
    have hjlt : j < 1024 := by
      rw [← hlen]; exact (List.getElem?_eq_some.mp hj).1
    rw [hlow j hjlt] at hj
    have := Option.some.inj hj
    omega
  have hpass := monitorPass_full 1024 3 s (acceptEvent 3 1028) hlen
    (listen_ready_acceptEvent 3 1028 s.aset hL) (by decide) hfull
  have hrun1 : monitorSockets 1024 3 (runServer 1024 3 0 none)
      (acceptEvents 3 4 1024 ++ [acceptEvent 3 1028]) = some
        { s with
          ndx := (1024 : Nat),
          trace := s.trace ++ [Action.acceptCall, Action.connected, Action.cantAccept] } := by
    rw [monitorSockets_append, hrun]
    show (match monitorPass 1024 3 s (acceptEvent 3 1028) with
      | none => none
      | some s1 => some s1) = _
    rw [hpass]
  have h4 : (4 : Int) ∈ s.aset := by simpa using hin 0 (by decide)
  have hnot : (3 : Int) ∉ selectReady s.aset (readEvent 4 (some aliceMsg)) := by
    simp [selectReady, readEvent]
  have hout : readSockets 1024 (selectReady s.aset (readEvent 4 (some aliceMsg)))
      (readEvent 4 (some aliceMsg))
      { s with
        ndx := (1024 : Nat),
        trace := s.trace ++ [Action.acceptCall, Action.connected, Action.cantAccept] } = none :=
    readSockets_outside _ _ _ _ (by simp [hlen])
  refine ⟨_, hrun1, hlen, rfl, ?_, hnot, ?_, by decide, ?_, hout, ?_⟩
  · simp [selectReady, readEvent, h4]
  · exact monitorPass_read 1024 3
      { s with
        ndx := (1024 : Nat),
        trace := s.trace ++ [Action.acceptCall, Action.connected, Action.cantAccept] } _ hnot
  · exact List.getElem?_eq_none (by simp [hlen])
  · rw [monitorSockets_append, hrun1]
    show (match monitorPass 1024 3 _ (readEvent 4 (some aliceMsg)) with
      | none => none
      | some s1 => some s1) = _
    rw [monitorPass_read 1024 3
      { s with
        ndx := (1024 : Nat),
        trace := s.trace ++ [Action.acceptCall, Action.connected, Action.cantAccept] } _ hnot]
    show (match readSockets 1024 _ _ _ with
      | none => none
      | some s1 => some s1) = _
    rw [hout]

/-! ## The formatted record and its buffer -/

theorem formatData_length (lead : List Char) (cIP cLat cLong cName cTime : Option (List Char)) :
    (formatData lead cIP cLat cLong cName cTime).length
      = lead.length + 57 + ((fmtArg cIP).length + (fmtArg cLat).length + (fmtArg cLong).length
          + (fmtArg cName).length + (fmtArg cTime).length) := by
  simp only [formatData, List.length_append]
  have h1 : "\x7b\n\"ip\": \"".toList.length = 9 := by decide
  have h2 : "\",\n\"lat\": ".toList.length = 10 := by decide
  have h3 : ",\n\"long\": ".toList.length = 10 := by decide
  have h4 : ",\n\"name\": \"".toList.length = 11 := by decide
  have h5 : "\",\n\"time\": \"".toList.length = 12 := by decide
  have h6 : "\"\n\x7d\n]".toList.length = 5 := by decide
  rw [h1, h2, h3, h4, h5, h6]
  omega

theorem formatData_eq (lead : List Char) (r : Tokens) :
    formatData lead r.ip r.lat r.lng r.name r.cTime
      = lead ++ recordObject r ++ "\n]".toList := by
  have h : "\"\n\x7d\n]".toList = "\"\n\x7d".toList ++ "\n]".toList := by decide
  simp only [formatData, recordObject, h, List.append_assoc]

set_option maxRecDepth 100000 in
/-- C10 fails on the code. The report `longMsg` has 243 bytes, it fits the
message buffer and `readSockets` splits it into five tokens; the text
`writeData` formats for it has 298 characters in both forms, more than the 255
that `data[BUFLEN]` holds besides the terminating byte, and `writeData` overruns
the buffer whether the data file exists or not. In general the formatting adds
59 characters to the five fields, which by themselves may have 252. -/
theorem C10_record_overruns_buffer :
    longMsg.length = 243 ∧ longMsg.length ≤ BUFLEN ∧
    msgString longMsg = some longMsg ∧
    parseMsg longMsg = longReport ∧
    (formatData "[\n".toList longReport.ip longReport.lat longReport.lng longReport.name
      longReport.cTime).length = 298 ∧
    (formatData ",\n".toList longReport.ip longReport.lat longReport.lng longReport.name
      longReport.cTime).length = 298 ∧
    ¬ (298 ≤ BUFLEN - 1) ∧
    writeData none longReport.ip longReport.lat longReport.lng longReport.name
      longReport.cTime = none ∧
    (∀ content, writeData (some content) longReport.ip longReport.lat longReport.lng
      longReport.name longReport.cTime = none) ∧
    (∀ (lead : List Char) (r : Tokens), lead.length = 2 →
      (formatData lead r.ip r.lat r.lng r.name r.cTime).length = 59 + fieldLength r) := by
  have hgen : ∀ (lead : List Char) (r : Tokens), lead.length = 2 →
      (formatData lead r.ip r.lat r.lng r.name r.cTime).length = 59 + fieldLength r := by
    intro lead r h
    rw [formatData_length, h]
    unfold fieldLength
    omega
  have hfl : fieldLength longReport = 239 := by decide
  have hlen : ∀ lead : List Char, lead.length = 2 →
      (formatData lead longReport.ip longReport.lat longReport.lng longReport.name
        longReport.cTime).length = 298 := by
    intro lead h
    rw [hgen lead longReport h, hfl]
  refine ⟨by decide, by decide, by decide, by decide, hlen _ (by decide), hlen _ (by decide),
    by decide, ?_, fun content => ?_, hgen⟩
  · simp only [writeData]
    rw [if_pos (by rw [hlen _ (by decide)]; decide)]
  · simp only [writeData]
    rw [if_pos (by rw [hlen _ (by decide)]; decide)]

/-! ## Parsing a report of five tokens -/

theorem takeWhile_token (t rest : List Char) (h : ∀ c ∈ t, c ≠ ' ') :
    (t ++ ' ' :: rest).takeWhile (fun c => c != ' ') = t ∧
      (t ++ ' ' :: rest).dropWhile (fun c => c != ' ') = ' ' :: rest := by
  induction t with
  | nil => simp
  | cons c cs ih =>
    have hc : c ≠ ' ' := h c (List.mem_cons_self _ _)
    obtain ⟨h1, h2⟩ := ih (fun d hd => h d (List.mem_cons_of_mem _ hd))
    simp [List.takeWhile_cons, List.dropWhile_cons, hc, h1, h2]

theorem takeWhile_last (t : List Char) (h : ∀ c ∈ t, c ≠ ' ') :
    t.takeWhile (fun c => c != ' ') = t ∧ t.dropWhile (fun c => c != ' ') = [] := by
  induction t with
  | nil => simp
  | cons c cs ih =>
    have hc : c ≠ ' ' := h c (List.mem_cons_self _ _)
    obtain ⟨h1, h2⟩ := ih (fun d hd => h d (List.mem_cons_of_mem _ hd))
    simp [List.takeWhile_cons, List.dropWhile_cons, hc, h1, h2]

theorem strtok_token (t rest : List Char) (ht : isToken t) :
    strtok (t ++ ' ' :: rest) = (some t, rest) := by
  obtain ⟨hne, hc⟩ := ht
  cases t with
  | nil => exact absurd rfl hne
  | cons c cs =>
    have hsp : ∀ d ∈ c :: cs, d ≠ ' ' := fun d hd => (hc d hd).1
    have hc0 : c ≠ ' ' := hsp c (List.mem_cons_self _ _)
    obtain ⟨h1, h2⟩ := takeWhile_token (c :: cs) rest hsp
    have hd : (c :: cs ++ ' ' :: rest).dropWhile (fun c => c == ' ') = c :: (cs ++ ' ' :: rest) := by
      simp [List.dropWhile_cons, hc0]
    unfold strtok
    rw [hd]
    simp only
    rw [← List.cons_append, h1, h2]
    rfl

theorem strtok_last (t : List Char) (ht : isToken t) : strtok t = (some t, []) := by
  obtain ⟨hne, hc⟩ := ht
  cases t with
  | nil => exact absurd rfl hne
  | cons c cs =>
    have hsp : ∀ d ∈ c :: cs, d ≠ ' ' := fun d hd => (hc d hd).1
    have hc0 : c ≠ ' ' := hsp c (List.mem_cons_self _ _)
    obtain ⟨h1, h2⟩ := takeWhile_last (c :: cs) hsp
    have hd : (c :: cs).dropWhile (fun c => c == ' ') = c :: cs := by
      simp [List.dropWhile_cons, hc0]
    unfold strtok
    rw [hd]
    simp only
    rw [h1, h2]
    rfl

/-- The five `strtok` calls on a message of five tokens return the tokens in
the order `cTime`, `ip`, `name`, `lat`, `lng`. -/
theorem parseMsg_fiveTokens (t1 t2 t3 t4 t5 : List Char)
    (h1 : isToken t1) (h2 : isToken t2) (h3 : isToken t3) (h4 : isToken t4) (h5 : isToken t5) :
    parseMsg (fiveTokens t1 t2 t3 t4 t5)
      = { cTime := some t1, ip := some t2, name := some t3, lat := some t4, lng := some t5 } := by
  simp only [parseMsg, fiveTokens, strtok_token _ _ h1, strtok_token _ _ h2,
    strtok_token _ _ h3, strtok_token _ _ h4, strtok_last _ h5]

theorem fiveTokens_length (t1 t2 t3 t4 t5 : List Char) :
    (fiveTokens t1 t2 t3 t4 t5).length
      = t1.length + t2.length + t3.length + t4.length + t5.length + 4 := by
  simp only [fiveTokens, List.length_append, List.length_cons]
  omega

theorem fiveTokens_no_nul (t1 t2 t3 t4 t5 : List Char)
    (h1 : isToken t1) (h2 : isToken t2) (h3 : isToken t3) (h4 : isToken t4) (h5 : isToken t5) :
    ∀ c ∈ fiveTokens t1 t2 t3 t4 t5, c ≠ nul := by
  intro c hc
  have hsp : (' ' : Char) ≠ nul := by decide
  simp only [fiveTokens, List.mem_append, List.mem_cons] at hc
  rcases hc with h | h | h | h | h | h | h | h | h
  · exact (h1.2 c h).2
  · rw [h]; exact hsp
  · exact (h2.2 c h).2
  · rw [h]; exact hsp
  · exact (h3.2 c h).2
  · rw [h]; exact hsp
  · exact (h4.2 c h).2
  · rw [h]; exact hsp
  · exact (h5.2 c h).2

/-- A message without zero byte that is shorter than the buffer is the C string
found in the buffer. -/
theorem msgString_short (bytes : List Char) (hlen : bytes.length < BUFLEN)
    (hnul : ∀ c ∈ bytes, c ≠ nul) : msgString bytes = some bytes := by
  have htake : bytes.take BUFLEN = bytes := List.take_of_length_le (by omega)
  have hall : bytes.takeWhile (fun c => c != nul) = bytes := by
    rw [List.takeWhile_eq_self_iff]
    intro c hc
    simpa using hnul c hc
  unfold msgString
  simp only [htake]
  rw [if_pos (Or.inr hlen), hall]

/-! ## Writing a report -/

/-- When the five fields have at most 196 characters together, `writeData`
writes the record: a new file gets the opening bracket, the record object and
the closing bracket; an existing file keeps all its bytes but the last one,
followed by a comma, the record object and the closing bracket. -/
theorem writeData_fit (file : Option (List Char)) (r : Tokens) (hfit : fieldLength r ≤ 196) :
    writeData file r.ip r.lat r.lng r.name r.cTime = some
      (match file with
        | none => "[\n".toList ++ recordObject r ++ "\n]".toList
        | some content => content.dropLast ++ (",\n".toList ++ recordObject r ++ "\n]".toList),
       match file with
        | none => []
        | some content => if content.length = 0 then [Action.fseekFailed] else []) := by
  have hlen : ∀ lead : List Char, lead.length = 2 →
      ¬ BUFLEN ≤ (formatData lead r.ip r.lat r.lng r.name r.cTime).length := by
    intro lead h
    rw [formatData_length, h]
    unfold fieldLength at hfit
    unfold BUFLEN
    omega
  cases file with
  | none =>
    simp only [writeData]
    rw [if_neg (hlen _ (by decide)), formatData_eq]
  | some content =>
    simp only [writeData]
    rw [if_neg (hlen _ (by decide)), formatData_eq]
    by_cases hc : content.length = 0
    · rw [if_pos hc, if_pos hc]
      have : content = [] := List.length_eq_zero.mp hc
      subst this
      rfl
    · rw [if_neg hc, if_neg hc]

/-- When the five fields have more than 196 characters together, the text
`writeData` formats overruns `data[BUFLEN]`. -/
theorem writeData_overrun (file : Option (List Char)) (r : Tokens)
    (hlong : 196 < fieldLength r) :
    writeData file r.ip r.lat r.lng r.name r.cTime = none := by
  have hlen : ∀ lead : List Char, lead.length = 2 →
      BUFLEN ≤ (formatData lead r.ip r.lat r.lng r.name r.cTime).length := by
    intro lead h
    rw [formatData_length, h]
    unfold fieldLength at hlong
    unfold BUFLEN
    omega
  cases file with
  | none =>
    simp only [writeData]
    rw [if_pos (hlen _ (by decide))]
  | some content =>
    simp only [writeData]
    rw [if_pos (hlen _ (by decide))]

/-- What the loop of `readSockets` does at an occupied, ready slot whose `read`
delivers a message of five tokens: when the tokens have at most 196 bytes
together (a message of at most 200 bytes) exactly one `writeData` call is made,
with `ip`, `lat`, `long`, `name` and `time` the second, fourth, fifth, third and
first token, and the record is written to the data file; when they have more,
the formatted text overruns the buffer of `writeData`. -/
theorem readSlot_fiveTokens (rset : Finset Int) (ev : Event) (i : Nat) (s : ServerState)
    (sockfd : Int) (t1 t2 t3 t4 t5 : List Char)
    (hslot : s.clients[i]? = some sockfd) (hocc : 0 ≤ sockfd) (hready : sockfd ∈ rset)
    (h1 : isToken t1) (h2 : isToken t2) (h3 : isToken t3) (h4 : isToken t4) (h5 : isToken t5)
    (hread : ev.readRes i = some (fiveTokens t1 t2 t3 t4 t5))
    (hlen : (fiveTokens t1 t2 t3 t4 t5).length ≤ 255) :
    (t1.length + t2.length + t3.length + t4.length + t5.length ≤ 196 →
      ∃ content logged,
        writeData s.file (some t2) (some t4) (some t5) (some t3) (some t1)
          = some (content, logged) ∧
        content = (match s.file with
          | none => "[\n".toList
          | some old => old.dropLast ++ ",\n".toList)
          ++ recordObject
            { cTime := some t1, ip := some t2, name := some t3, lat := some t4, lng := some t5 }
          ++ "\n]".toList ∧
        readSlot rset ev i s = some
          { s with
            file := some content,
            trace := s.trace ++ [Action.readCall i sockfd]
              ++ [Action.writeDataCall (some t2) (some t4) (some t5) (some t3) (some t1)]
              ++ logged }) ∧
    (196 < t1.length + t2.length + t3.length + t4.length + t5.length →
      readSlot rset ev i s = none) := by
  have hmsg := msgString_short (fiveTokens t1 t2 t3 t4 t5) (by unfold BUFLEN; omega)
    (fiveTokens_no_nul t1 t2 t3 t4 t5 h1 h2 h3 h4 h5)
  have hparse := parseMsg_fiveTokens t1 t2 t3 t4 t5 h1 h2 h3 h4 h5
  have hl := fiveTokens_length t1 t2 t3 t4 t5
  have htake : ((fiveTokens t1 t2 t3 t4 t5).take BUFLEN).length
      = (fiveTokens t1 t2 t3 t4 t5).length := by
    rw [List.take_of_length_le (by unfold BUFLEN; omega)]
  have hrm : readMsg (some (fiveTokens t1 t2 t3 t4 t5))
      = ((((fiveTokens t1 t2 t3 t4 t5).length : Nat) : Int), []) := by
    simp only [readMsg, htake]
  have hfl : fieldLength
      { cTime := some t1, ip := some t2, name := some t3, lat := some t4, lng := some t5 }
      = t2.length + t4.length + t5.length + t3.length + t1.length := rfl
  have hstep : readSlot rset ev i s
      = match writeData s.file (some t2) (some t4) (some t5) (some t3) (some t1) with
        | none => none
        | some (content, logged) => some
          { s with
            file := some content,
            trace := s.trace ++ [Action.readCall i sockfd]
              ++ [Action.writeDataCall (some t2) (some t4) (some t5) (some t3) (some t1)]
              ++ logged } := by
    unfold readSlot
    simp only [hslot, not_lt.mpr hocc, if_false, hready, if_true, hread, hrm, Option.getD_some,
      hmsg, hparse, List.append_nil]
    rw [if_neg (by omega), if_neg (by omega)]
  constructor
  · intro hfit
    have hw := writeData_fit s.file
      { cTime := some t1, ip := some t2, name := some t3, lat := some t4, lng := some t5 }
      (by rw [hfl]; omega)
    simp only at hw
    refine ⟨_, _, hw, ?_, ?_⟩
    · cases s.file <;> simp [List.append_assoc]
    · rw [hstep, hw]
  · intro hlong
    have hw := writeData_overrun s.file
      { cTime := some t1, ip := some t2, name := some t3, lat := some t4, lng := some t5 }
      (by rw [hfl]; omega)
    simp only at hw
    rw [hstep, hw]

set_option maxRecDepth 100000 in
/-- C7 fails on the code. The report `longMsg` has 243 bytes and is made of
five tokens without space or zero byte, separated by single spaces. When the
ready slot 0 reads it, the tokens are split as the claim says, but the text
`writeData` formats has 298 characters and overruns `data[BUFLEN]`: no record
text is produced, whether the data file exists or not. The report of the
scenario of the specification, 48 bytes long, is recorded as the claim says. -/
theorem C7_long_report_overruns_buffer :
    longMsg = fiveTokens "2024-01-01T00:00:00Z".toList "10.0.0.5".toList longName
      "43.65".toList "-79.38".toList ∧
    isToken "2024-01-01T00:00:00Z".toList ∧ isToken "10.0.0.5".toList ∧ isToken longName ∧
    isToken "43.65".toList ∧ isToken "-79.38".toList ∧
    longMsg.length = 243 ∧ longMsg.length ≤ 255 ∧
    (oneClient none).clients[0]? = some 4 ∧
    parseMsg longMsg = longReport ∧
    (∀ file, readSlot {4} (readEvent 4 (some longMsg)) 0 (oneClient file) = none) ∧
    readSlot {4} (readEvent 4 (some aliceMsg)) 0 (oneClient none) = some
      { oneClient none with
        file := some (fileText aliceReport []),
        trace := [Action.readCall 0 4,
          Action.writeDataCall (some "10.0.0.5".toList) (some "43.65".toList)
            (some "-79.38".toList) (some "alice".toList) (some "2024-01-01T00:00:00Z".toList)] } := by
  have ht1 : isToken "2024-01-01T00:00:00Z".toList := by decide
  have ht2 : isToken "10.0.0.5".toList := by decide
  have ht3 : isToken longName := by decide
  have ht4 : isToken "43.65".toList := by decide
  have ht5 : isToken "-79.38".toList := by decide
  refine ⟨rfl, ht1, ht2, ht3, ht4, ht5, by decide, by decide, by decide, by decide, ?_, ?_⟩
  · intro file
    exact (readSlot_fiveTokens {4} (readEvent 4 (some longMsg)) 0 (oneClient file) 4
      "2024-01-01T00:00:00Z".toList "10.0.0.5".toList longName "43.65".toList "-79.38".toList
      rfl (by decide) (by decide) ht1 ht2 ht3 ht4 ht5 rfl (by decide)).2 (by decide)
  · exact eq_some_of_exists _ _ ⟨_, rfl, by decide⟩

/-! ## Successive reports -/

theorem fileText_snoc (r : Tokens) (done : List Tokens) (x : Tokens) :
    fileText r (done ++ [x])
      = (fileText r done).dropLast ++ (",\n".toList ++ recordObject x ++ "\n]".toList) := by
  have h1 : "\n]".toList = ['\n'] ++ [']'] := by decide
  have h2 : "\n,\n".toList = ['\n'] ++ ",\n".toList := by decide
  simp only [fileText, List.map_append, List.flatten_append, List.map_cons, List.map_nil,
    List.flatten_cons, List.flatten_nil, List.append_nil, h1, h2, ← List.append_assoc,
    List.dropLast_concat]

theorem fileText_length_pos (r : Tokens) (done : List Tokens) :
    (fileText r done).length ≠ 0 := by
  simp [fileText]

/-- Reports that fit the buffer are appended to an existing data file one after
the other. -/
theorem writeReports_existing (r : Tokens) :
    ∀ (rs done : List Tokens), (∀ x ∈ rs, fieldLength x ≤ 196) →
      writeReports (some (fileText r done)) rs = some (some (fileText r (done ++ rs))) := by
  intro rs
  induction rs with
  | nil => intro done _; simp [writeReports]
  | cons x rs ih =>
    intro done hfit
    have hw := writeData_fit (some (fileText r done)) x (hfit x (List.mem_cons_self _ _))
    simp only at hw
    simp only [writeReports, hw]
    rw [← fileText_snoc, ih (done ++ [x]) (fun y hy => hfit y (List.mem_cons_of_mem _ hy))]
    simp

/-- Persistence is append-only and order-preserving for reports that fit the
buffer of `writeData`: starting without a data file, the content after the
reports `r :: rs` is the text the specification describes, and every call on an
existing file keeps all its bytes but the last one at the start of the new
content. -/
theorem writeReports_fit (r : Tokens) (rs : List Tokens)
    (hfit : ∀ x ∈ r :: rs, fieldLength x ≤ 196) :
    writeReports none (r :: rs) = some (some (fileText r rs)) ∧
    (∀ (content : List Char) (x : Tokens), fieldLength x ≤ 196 →
      ∃ new logged rest, writeData (some content) x.ip x.lat x.lng x.name x.cTime
          = some (new, logged) ∧ new = content.dropLast ++ rest) := by
  constructor
  · have hw := writeData_fit none r (hfit r (List.mem_cons_self _ _))
    simp only at hw
    simp only [writeReports, hw]
    have h0 : "[\n".toList ++ recordObject r ++ "\n]".toList = fileText r [] := by
      simp [fileText]
    rw [h0, writeReports_existing r rs [] (fun y hy => hfit y (List.mem_cons_of_mem _ hy))]
    simp
  · intro content x hx
    have hw := writeData_fit (some content) x hx
    simp only at hw
    exact ⟨_, _, _, hw, rfl⟩

set_option maxRecDepth 100000 in
/-- C8 fails on the code. Starting without a data file, the report of the
scenario of the specification is written as the claim says, but a following
report whose five fields have 239 characters together makes `sprintf` overrun
`data[BUFLEN]` in `writeData`: the file does not get the content the claim
describes, and the same happens when such a report is the first one. -/
theorem C8_long_report_not_appended :
    fieldLength aliceReport = 44 ∧ fieldLength longReport = 239 ∧
    writeReports none [aliceReport] = some (some (fileText aliceReport [])) ∧
    writeReports none [aliceReport, longReport] = none ∧
    writeReports none [longReport] = none ∧
    writeReports none [aliceReport, longReport] ≠ some (some (fileText aliceReport [longReport])) ∧
    writeReports none [longReport] ≠ some (some (fileText longReport [])) := by
  have h1 : fieldLength aliceReport = 44 := by decide
  have h2 : fieldLength longReport = 239 := by decide
  have ha : writeReports none [aliceReport] = some (some (fileText aliceReport [])) :=
    (writeReports_fit aliceReport [] (by
      intro x hx
      simp only [List.mem_singleton] at hx
      rw [hx, h1]
      decide)).1
  have hw1 := writeData_fit none aliceReport (by rw [h1]; decide)
  have hw2 : ∀ file, writeData file longReport.ip longReport.lat longReport.lng
      longReport.name longReport.cTime = none :=
    fun file => writeData_overrun file longReport (by rw [h2]; decide)
  simp only at hw1
  have hb : writeReports none [aliceReport, longReport] = none := by
    simp only [writeReports, hw1, hw2]
  have hc : writeReports none [longReport] = none := by
    simp only [writeReports, hw2]
  refine ⟨h1, h2, ha, hb, hc, ?_, ?_⟩
  · rw [hb]; exact fun h => nomatch h
  · rw [hc]; exact fun h => nomatch h

end GpsServer
